import Mathlib

/-!
A shallow embedding of the graph-analysis core of the IES4 military database
analysis suite (`src/graph_builder.py`, `src/filter_system.py`,
`src/statistics_generator.py`), together with theorems settling the frozen
claims about it.

Modelling conventions:
* Python dicts of entity fields become structures with `Option` fields
  (`none` = key absent).  Python truthiness of a string is "nonempty",
  of an integer "nonzero", of `None` "false".
* NetworkX `nx.Graph` (simple undirected graph) becomes an insertion-ordered
  association list of nodes plus an insertion-ordered edge list in which an
  edge is updated in place when its unordered endpoint pair is already
  present (mirroring the adjacency-dict storage of a simple graph).
* Python `float` arithmetic in the quality score is modelled with exact
  rationals (`ℚ`); the operations involved are sums, products and one
  division, evaluated at small operands.
* A code path that raises an uncaught exception is modelled by `Option`
  results (`none` = the call raises to the caller).
-/

namespace IES

/-- ASCII lowering of one character (`str.lower()`; the data the claims
exercise is ASCII). -/
def lowerChar (c : Char) : Char :=
  if 65 ≤ c.toNat ∧ c.toNat ≤ 90 then Char.ofNat (c.toNat + 32) else c

/-- Python `s.lower()`. -/
def lowerS (s : String) : String := String.mk (s.data.map lowerChar)

/-- List-of-characters prefix test. -/
def prefixList : List Char → List Char → Bool
  | [], _ => true
  | _ :: _, [] => false
  | a :: as, b :: bs => a == b && prefixList as bs

/-- `needle` occurs as a contiguous sublist of `hay`. -/
def subList : List Char → List Char → Bool
  | n, [] => n.isEmpty
  | n, c :: r => prefixList n (c :: r) || subList n r

/-- Python `needle in hay` substring test (empty needle always matches). -/
def strContains (hay needle : String) : Bool := subList needle.data hay.data

/-- Python `hay.endswith(needle)`. -/
def strEndsWith (hay needle : String) : Bool :=
  prefixList needle.data.reverse hay.data.reverse

/-- Python whitespace test for `int(...)`'s argument stripping. -/
def isSpaceB (c : Char) : Bool := c == ' ' || c == '\t' || c == '\n' || c == '\r'

/-- Parse a nonempty all-digit character list as a natural number. -/
def digitsToNat? (l : List Char) : Option Nat :=
  if l.isEmpty then none
  else if l.all Char.isDigit then
    some (l.foldl (fun a c => a * 10 + (c.toNat - 48)) 0)
  else none

/-- Python `int(s)` on a string: optional surrounding whitespace, optional
sign, decimal digits; `none` when `ValueError` would be raised. -/
def pyStrToInt (s : String) : Option Int :=
  let t := ((s.data.dropWhile isSpaceB).reverse.dropWhile isSpaceB).reverse
  match t with
  | '-' :: rest => (digitsToNat? rest).map (fun n => -(n : Int))
  | '+' :: rest => (digitsToNat? rest).map (fun n => (n : Int))
  | _ => (digitsToNat? t).map (fun n => (n : Int))

/-- Python `s.split(sep)` for a single-character separator. -/
def splitOnChar (sep : Char) : List Char → List (List Char)
  | [] => [[]]
  | c :: r =>
    let rest := splitOnChar sep r
    if c == sep then [] :: rest
    else
      match rest with
      | p :: ps => (c :: p) :: ps
      | [] => [[c]]

/-- One entry of an entity's `names` list (`{nameType, value}`). -/
structure NameObj where
  nameType : Option String := none
  value : Option String := none
deriving DecidableEq

/-- One entry of `temporalParts`. -/
structure TemporalPart where
  location : Option String := none
deriving DecidableEq

/-- One entry of `states`. -/
structure StateObj where
  location : Option String := none
  organisation : Option String := none
deriving DecidableEq

/-- An entity record: a Python dict with the fields the core reads.
`none` models an absent key.  `sourceDatabase` models the `_source_database`
bookkeeping key, `primaryName` the `_primary_name` key. -/
structure Entity where
  id : Option String := none
  names : Option (List NameObj) := none
  name : Option String := none
  title : Option String := none
  value : Option String := none
  year : Option Int := none
  make : Option String := none
  model : Option String := none
  owner : Option String := none
  country : Option String := none
  nationality : Option String := none
  vehicleType : Option String := none
  fuelType : Option String := none
  personTypes : Option (List String) := none
  birthDate : Option String := none
  organizationType : Option String := none
  personnelStrength : Option Int := none
  areaType : Option String := none
  administrativeLevel : Option String := none
  parentArea : Option String := none
  headquarters : Option String := none
  childAreas : Option (List String) := none
  temporalParts : Option (List TemporalPart) := none
  states : Option (List StateObj) := none
  description : Option String := none
  classification : Option String := none
  sourceDatabase : Option String := none
  primaryName : Option String := none
deriving DecidableEq

/-- The attribute dict `GraphBuilder._add_node` attaches to a node:
the basic attributes, the optional `data` payload, and the searchable
attributes of `_extract_searchable_attributes` (absent key = `none`). -/
structure NodeData where
  type : String := ""
  label : String := ""
  color : String := ""
  data : Option Entity := none
  year : Option Int := none
  manufacturer : Option String := none
  model : Option String := none
  owner : Option String := none
  country : Option String := none
  nationality : Option String := none
  vehicle_type : Option String := none
  fuel_type : Option String := none
  person_types : Option (List String) := none
  birth_date : Option String := none
  organization_type : Option String := none
  personnel_strength : Option Int := none
  area_type : Option String := none
  admin_level : Option String := none
deriving DecidableEq

/-- An edge of the simple undirected graph, with its attribute dict. -/
structure Edge where
  src : String
  tgt : String
  relationship : String
  weight : ℚ
deriving DecidableEq

/-- The `nx.Graph`: insertion-ordered node association list (unique keys
by construction) and insertion-ordered edge list (at most one edge per
unordered endpoint pair by construction). -/
structure Graph where
  nodes : List (String × NodeData) := []
  edges : List Edge := []
deriving DecidableEq

/-- The node-id set of a graph. -/
def nodeIds (g : Graph) : Finset String :=
  (g.nodes.map Prod.fst).toFinset

/-- NetworkX well-formedness: every edge endpoint is a node.  `nx.Graph`
guarantees this for every graph the Python code can ever hold. -/
def Wf (g : Graph) : Prop :=
  ∀ e ∈ g.edges, e.src ∈ nodeIds g ∧ e.tgt ∈ nodeIds g

instance (g : Graph) : Decidable (Wf g) := by
  unfold Wf; infer_instance

/-- `graph.degree(n)`: incident edge count, a self-loop counting twice. -/
def degree (g : Graph) (n : String) : Nat :=
  g.edges.foldl
    (fun acc e =>
      acc + (if e.src = n ∧ e.tgt = n then 2
             else if e.src = n ∨ e.tgt = n then 1 else 0)) 0

/-- `graph.neighbors(n)` as a set. -/
def neighbors (g : Graph) (n : String) : Finset String :=
  (g.edges.filterMap
    (fun e =>
      if e.src = n then some e.tgt
      else if e.tgt = n then some e.src
      else none)).toFinset

/-- `graph.subgraph(S).copy()`: the induced subgraph over a node subset
(node attributes preserved, edges with both endpoints in `S` retained). -/
def inducedSubgraph (g : Graph) (s : Finset String) : Graph :=
  { nodes := g.nodes.filter (fun p => p.1 ∈ s)
    edges := g.edges.filter (fun e => e.src ∈ s ∧ e.tgt ∈ s) }

/-- Unordered endpoint-pair equality test used by the simple-graph edge
store: does edge `e` connect `u` and `v`? -/
def eqPair (u v : String) (e : Edge) : Bool :=
  (e.src == u && e.tgt == v) || (e.src == v && e.tgt == u)

/-- `graph.add_edge(u, v, relationship=rel, weight=1.0)` on the edge list:
a simple graph keys its edges by unordered endpoint pair, so an existing
edge between the pair has its attributes updated in place (endpoint order
and list position preserved) and otherwise a fresh edge is appended. -/
def upsertEdge (u v rel : String) : List Edge → List Edge
  | [] => [⟨u, v, rel, 1⟩]
  | e :: rest =>
      if eqPair u v e then ⟨e.src, e.tgt, rel, 1⟩ :: rest
      else e :: upsertEdge u v rel rest

/-- `GraphBuilder._add_edge`: skip self-loops, otherwise insert/overwrite.
(`nx.Graph.add_edge` would also create an absent endpoint node; in
`build_graph` both endpoints are always existing nodes — every edge is
guarded by membership in `entity_map`, whose every key received a node —
so only the edge list changes.) -/
def addEdge (g : Graph) (u v rel : String) : Graph :=
  if u = v then g
  else { g with edges := upsertEdge u v rel g.edges }

/-- The relationship label currently stored between `u` and `v`. -/
def relBetween (g : Graph) (u v : String) : Option String :=
  (g.edges.find? (eqPair u v)).map (fun e => e.relationship)

/-- Attribute-dict update performed by `graph.add_node` on an existing
node: newly supplied keys overwrite, keys only in the old dict persist.
`_add_node` always supplies `type`, `label`, `color` (and `data` exactly
when metadata is included). -/
def mergeNodeData (old new : NodeData) : NodeData :=
  { type := new.type
    label := new.label
    color := new.color
    data := new.data <|> old.data
    year := new.year <|> old.year
    manufacturer := new.manufacturer <|> old.manufacturer
    model := new.model <|> old.model
    owner := new.owner <|> old.owner
    country := new.country <|> old.country
    nationality := new.nationality <|> old.nationality
    vehicle_type := new.vehicle_type <|> old.vehicle_type
    fuel_type := new.fuel_type <|> old.fuel_type
    person_types := new.person_types <|> old.person_types
    birth_date := new.birth_date <|> old.birth_date
    organization_type := new.organization_type <|> old.organization_type
    personnel_strength := new.personnel_strength <|> old.personnel_strength
    area_type := new.area_type <|> old.area_type
    admin_level := new.admin_level <|> old.admin_level }

/-- `graph.add_node(id, **attrs)` on the node list: update in place if the
id exists, else append. -/
def upsertNode (nid : String) (nd : NodeData) :
    List (String × NodeData) → List (String × NodeData)
  | [] => [(nid, nd)]
  | p :: rest =>
      if p.1 = nid then (nid, mergeNodeData p.2 nd) :: rest
      else p :: upsertNode nid nd rest

/-! ## Graph Builder (`src/graph_builder.py`) -/

/-- `GraphBuilder.entity_types`. -/
def entityTypes : List String :=
  ["countries", "vehicles", "vehicleTypes", "people", "peopleTypes",
   "areas", "militaryOrganizations", "representations"]

/-- `GraphBuilder.node_colors` (keyed by singular type names). -/
def nodeColors : List (String × String) :=
  [("country", "#FF6B6B"), ("vehicle", "#4ECDC4"), ("person", "#45B7D1"),
   ("area", "#96CEB4"), ("militaryOrganization", "#FECA57"),
   ("vehicleType", "#A8E6CF"), ("peopleType", "#DDA0DD"),
   ("representation", "#F8B500")]

/-- `self.node_colors.get(entity_type, '#808080')`. -/
def colorFor (etype : String) : String :=
  ((nodeColors.find? (fun p => p.1 = etype)).map Prod.snd).getD "#808080"

/-- The fallback chain of `_extract_primary_name` after the `names` list:
the first present field among `name`, `title`, `value`, else
`entity.get('id', 'Unknown')`. -/
def labelFallback (e : Entity) : String :=
  match e.name with
  | some s => s
  | none =>
    match e.title with
    | some s => s
    | none =>
      match e.value with
      | some s => s
      | none => e.id.getD "Unknown"

/-- `GraphBuilder._extract_primary_name`: a preprocessed `_primary_name`
wins; else the first `names` entry with `nameType == 'official'`, else the
first `names` entry (all `names` entries are dicts in this model, so the
`isinstance` branches always take the dict path); else the field fallback. -/
def extractPrimaryName (e : Entity) : String :=
  match e.primaryName with
  | some s => s
  | none =>
    match e.names with
    | some (n0 :: rest) =>
      match (n0 :: rest).find? (fun n => n.nameType = some "official") with
      | some n => n.value.getD ""
      | none => n0.value.getD ""
    | _ => labelFallback e

/-- The attribute dict built by `_add_node` together with
`_extract_searchable_attributes` (the two dict updates composed): basic
attributes, the payload when metadata is included, the common searchable
fields, and the type-specific fields guarded by the *singular* type names
that `_extract_searchable_attributes` compares against. -/
def mkNodeData (e : Entity) (etype : String) (includeMetadata : Bool) : NodeData :=
  { type := etype
    label := extractPrimaryName e
    color := colorFor etype
    data := if includeMetadata then some e else none
    year := e.year
    manufacturer := e.make
    model := e.model
    owner := e.owner
    country := e.country
    nationality := e.nationality
    vehicle_type := if etype = "vehicle" then e.vehicleType else none
    fuel_type := if etype = "vehicle" then e.fuelType else none
    person_types := if etype = "person" then e.personTypes else none
    birth_date := if etype = "person" then e.birthDate else none
    organization_type := if etype = "militaryOrganization" then e.organizationType else none
    personnel_strength := if etype = "militaryOrganization" then e.personnelStrength else none
    area_type := if etype = "area" then e.areaType else none
    admin_level := if etype = "area" then e.administrativeLevel else none }

/-- `GraphBuilder._add_node`. -/
def addNode (g : Graph) (nid : String) (e : Entity) (etype : String)
    (includeMetadata : Bool) : Graph :=
  { g with nodes := upsertNode nid (mkNodeData e etype includeMetadata) g.nodes }

/-- The `entity_map` dict: node id ↦ (entity type, entity payload). -/
abbrev EMap := List (String × (String × Entity))

/-- Python dict insertion on `entity_map` (overwrite keeps position). -/
def upsertEMap (nid : String) (v : String × Entity) : EMap → EMap
  | [] => [(nid, v)]
  | p :: rest =>
      if p.1 = nid then (nid, v) :: rest
      else p :: upsertEMap nid v rest

/-- `target_id in entity_map`. -/
def inEMap (m : EMap) (nid : String) : Bool :=
  m.any (fun p => p.1 = nid)

/-- `GraphBuilder._extract_direct_references`: the six single-valued
reference fields, kept when present and truthy (nonempty). -/
def extractDirectReferences (e : Entity) : List (String × String) :=
  (([("owner", e.owner), ("country", e.country), ("vehicleType", e.vehicleType),
     ("parentArea", e.parentArea), ("headquarters", e.headquarters),
     ("nationality", e.nationality)] : List (String × Option String)).filterMap
    (fun p => match p.2 with
      | some s => if s ≠ "" then some (p.1, s) else none
      | none => none))

/-- `GraphBuilder._extract_list_references`: `personTypes` and
`childAreas`, truthy items only, the field kept when the survivor list is
nonempty. -/
def extractListReferences (e : Entity) : List (String × List String) :=
  (([("personTypes", e.personTypes), ("childAreas", e.childAreas)] :
      List (String × Option (List String))).filterMap
    (fun p => match p.2 with
      | some l =>
        let tids := l.filter (fun s => s ≠ "")
        if tids ≠ [] then some (p.1, tids) else none
      | none => none))

/-- `GraphBuilder._extract_hierarchical_references`:
`temporalParts[].location`, then `states[].location` and
`states[].organisation`, each contributing a singleton target list. -/
def extractHierarchicalReferences (e : Entity) : List (String × List String) :=
  ((e.temporalParts.getD []).filterMap
    (fun tp => tp.location.map (fun l => ("temporal_location", [l]))))
  ++ ((e.states.getD []).foldr
    (fun st acc =>
      (match st.location with
       | some l => [("state_location", [l])]
       | none => [])
      ++ (match st.organisation with
          | some o => [("state_organization", [o])]
          | none => [])
      ++ acc) [])

/-- The edge insertions `_add_relationships` performs for one entity:
direct references, then list references, then hierarchical references,
each guarded by `target_id in entity_map`. -/
def addEntityEdges (emap : EMap) (g : Graph) (p : String × (String × Entity)) : Graph :=
  let e := p.2.2
  let g1 := (extractDirectReferences e).foldl
    (fun g fd => if inEMap emap fd.2 then addEdge g p.1 fd.2 fd.1 else g) g
  let g2 := (extractListReferences e).foldl
    (fun g fl => fl.2.foldl
      (fun g t => if inEMap emap t then addEdge g p.1 t fl.1 else g) g) g1
  (extractHierarchicalReferences e).foldl
    (fun g fl => fl.2.foldl
      (fun g t => if inEMap emap t then addEdge g p.1 t fl.1 else g) g) g2

/-- `GraphBuilder._add_relationships`: one pass over `entity_map` in
insertion order. -/
def addRelationships (g : Graph) (emap : EMap) : Graph :=
  emap.foldl (addEntityEdges emap) g

/-- A database: entity-collection name ↦ list of entities (`none` models
an absent key, as tested by `if entity_type in database`). -/
structure Database where
  countries : Option (List Entity) := none
  vehicles : Option (List Entity) := none
  vehicleTypes : Option (List Entity) := none
  people : Option (List Entity) := none
  peopleTypes : Option (List Entity) := none
  areas : Option (List Entity) := none
  militaryOrganizations : Option (List Entity) := none
  representations : Option (List Entity) := none
deriving DecidableEq

/-- `database[entity_type]` lookup for the supported collection names. -/
def Database.get (db : Database) : String → Option (List Entity)
  | "countries" => db.countries
  | "vehicles" => db.vehicles
  | "vehicleTypes" => db.vehicleTypes
  | "people" => db.people
  | "peopleTypes" => db.peopleTypes
  | "areas" => db.areas
  | "militaryOrganizations" => db.militaryOrganizations
  | "representations" => db.representations
  | _ => none

/-- The node-creation pass of `build_graph`: for each supported entity
type present in the database, for each entity with a truthy `id`, record
it in `entity_map` and add its node. -/
def buildNodes (db : Database) (includeMetadata : Bool) : Graph × EMap :=
  entityTypes.foldl
    (fun acc etype =>
      match db.get etype with
      | none => acc
      | some entities =>
        entities.foldl
          (fun acc2 e =>
            match e.id with
            | some nid =>
              if nid ≠ "" then
                (addNode acc2.1 nid e etype includeMetadata,
                 upsertEMap nid (etype, e) acc2.2)
              else acc2
            | none => acc2) acc)
    ({}, [])

/-- `GraphBuilder.build_graph` (graph-level `_metadata` bookkeeping is not
modelled: no claim mentions it and it does not influence nodes or edges). -/
def buildGraph (db : Database) (includeMetadata : Bool) : Graph :=
  let acc := buildNodes db includeMetadata
  addRelationships acc.1 acc.2

/-! ### `GraphBuilder.combine_databases` -/

/-- Truthy-id test `if entity_id and ...`. -/
def truthyId (e : Entity) : Option String :=
  match e.id with
  | some i => if i ≠ "" then some i else none
  | none => none

/-- The inner entity loop of `combine_databases` for one source and one
entity type: append entities whose truthy id is unseen, tagging each kept
copy with `_source_database = name`; returns the kept list and the updated
seen set. -/
def combineFromList (name : String) : List Entity → Finset String →
    List Entity × Finset String
  | [], seen => ([], seen)
  | e :: es, seen =>
    match truthyId e with
    | some i =>
      if i ∉ seen then
        let r := combineFromList name es (insert i seen)
        ({ e with sourceDatabase := some name } :: r.1, r.2)
      else combineFromList name es seen
    | none => combineFromList name es seen

/-- The per-entity-type projection of `combine_databases`' two nested
loops: the source's outer loop visits databases in caller order while each
entity type keeps its own `seen_ids` set and merged list, so the merged
list for a fixed type is this fold over sources. -/
def combineEntities (t : String) : List (String × Database) → Finset String →
    List Entity
  | [], _ => []
  | (name, db) :: rest, seen =>
    let step := combineFromList name ((db.get t).getD []) seen
    step.1 ++ combineEntities t rest step.2

/-- `GraphBuilder.combine_databases` (the `_metadata` counters are not
modelled; every supported entity type is present in the output, as the
source initialises `combined` with an empty list per type). -/
def combineDatabases (dbs : List (String × Database)) : Database :=
  { countries := some (combineEntities "countries" dbs ∅)
    vehicles := some (combineEntities "vehicles" dbs ∅)
    vehicleTypes := some (combineEntities "vehicleTypes" dbs ∅)
    people := some (combineEntities "people" dbs ∅)
    peopleTypes := some (combineEntities "peopleTypes" dbs ∅)
    areas := some (combineEntities "areas" dbs ∅)
    militaryOrganizations := some (combineEntities "militaryOrganizations" dbs ∅)
    representations := some (combineEntities "representations" dbs ∅) }

/-! ## Filter System (`src/filter_system.py`) -/

/-- A filter argument: the value types the filters are exercised with
(strings, integers, lists of strings). -/
inductive FilterValue where
  | str (s : String)
  | int (n : Int)
  | list (l : List String)
deriving DecidableEq

/-- Python `int(value)` for a filter argument, `none` when `ValueError` or
`TypeError` would be raised (both are caught by the callers that use it). -/
def pyToInt : FilterValue → Option Int
  | .str s => pyStrToInt s
  | .int n => some n
  | .list _ => none

/-- `FilterSystem.equipment_categories`. -/
def equipmentCategories : List (String × List String) :=
  [("aircraft_unmanned",
    ["unmanned aircraft", "aircraft", "drone", "uav", "unmanned aerial vehicle"]),
   ("communication_electronics",
    ["communication equipment", "electronic system", "computer system",
     "sensor", "sensor system", "equipment", "electronic_system",
     "radar", "radio", "electronics"]),
   ("weapons_defense",
    ["artillery", "missile", "defense system", "weapon", "ammunition",
     "gun", "cannon", "launcher", "rocket", "bomb"]),
   ("vehicles",
    ["armored vehicle", "vehicle", "car", "motorcycle", "truck", "bus", "van",
     "bicycle", "tank", "apc", "armored"]),
   ("naval_assets",
    ["naval vessel", "vessel", "boat", "watercraft", "ship", "submarine",
     "destroyer", "frigate", "carrier"]),
   ("transportation", ["train", "railway", "locomotive", "transport"]),
   ("administrative", ["organization", "other", "command", "headquarters", "base"]),
   ("geographic", ["country", "area", "coordinates", "location", "region", "territory"])]

/-- The generic shape of the node-scanning filters: collect the ids of the
nodes whose data satisfies the predicate. -/
def nodeFilter (g : Graph) (p : String → NodeData → Bool) : Finset String :=
  ((g.nodes.filter (fun q => p q.1 q.2)).map Prod.fst).toFinset

/-- `data.get(field, '')` helpers. -/
def NodeData.ownerS (d : NodeData) : String := d.owner.getD ""

def NodeData.countryS (d : NodeData) : String := d.country.getD ""

def NodeData.nationalityS (d : NodeData) : String := d.nationality.getD ""

def NodeData.manufacturerS (d : NodeData) : String := d.manufacturer.getD ""

def NodeData.vehicleTypeS (d : NodeData) : String := d.vehicle_type.getD ""

def NodeData.organizationTypeS (d : NodeData) : String := d.organization_type.getD ""

def NodeData.areaTypeS (d : NodeData) : String := d.area_type.getD ""

/-- The `names` list of the node's entity payload (`data.get('data', {})`
then `entity_data.get('names', [])`; all entries are dicts in this model). -/
def payloadNames (d : NodeData) : List NameObj :=
  ((d.data.map (fun e => e.names.getD [])).getD [])

/-- `entity_data.get(field, '')` for a payload text field. -/
def payloadStr (d : NodeData) (f : Entity → Option String) : String :=
  ((d.data.map (fun e => (f e).getD "")).getD "")

/-- `FilterSystem._filter_by_country`: exact lowered `country` match, or
`owner`/`nationality` ending with the token, or — for nodes whose `type`
is `'country'` — any payload name value containing the token. -/
def filterByCountry (g : Graph) (country : String) : Finset String :=
  let cl := (lowerS country)
  nodeFilter g (fun _ d =>
    ((lowerS d.countryS) == cl)
    || strEndsWith (lowerS d.ownerS) cl
    || strEndsWith (lowerS d.nationalityS) cl
    || (d.type == "country"
        && (payloadNames d).any (fun n => strContains (lowerS (n.value.getD "")) cl)))

/-- `FilterSystem._filter_by_type`: exact match on the node `type`. -/
def filterByType (g : Graph) (etype : String) : Finset String :=
  nodeFilter g (fun _ d => d.type == etype)

/-- `FilterSystem._filter_by_year`: unparseable argument fails closed to
the empty set; else equality against the flattened `year` attribute or the
payload's `year`. -/
def filterByYear (g : Graph) (v : FilterValue) : Finset String :=
  match pyToInt v with
  | none => ∅
  | some y =>
    nodeFilter g (fun _ d =>
      (d.year == some y) || ((d.data.bind (fun e => e.year)) == some y))

/-- The `'YYYY-YYYY'` parse of `_filter_by_year_range`: split on `'-'`,
exactly two parts, both `int(...)`-parseable. -/
def parseYearRange (s : String) : Option (Int × Int) :=
  match (splitOnChar '-' s.data).map List.asString with
  | [a, b] => (pyStrToInt a).bind (fun x => (pyStrToInt b).map (fun y => (x, y)))
  | _ => none

/-- `FilterSystem._filter_by_year_range` on a string argument: malformed
input fails closed; else an inclusive range test against a *truthy* year,
on the flattened attribute or the payload. -/
def filterByYearRange (g : Graph) (s : String) : Finset String :=
  match parseYearRange s with
  | none => ∅
  | some (a, b) =>
    nodeFilter g (fun _ d =>
      (match d.year with
       | some y => y ≠ 0 && a ≤ y && y ≤ b
       | none => false)
      || (match d.data.bind (fun e => e.year) with
          | some y => y ≠ 0 && a ≤ y && y ≤ b
          | none => false))

/-- `FilterSystem._filter_by_manufacturer`: lowered substring match on the
`manufacturer` attribute or the payload's `make`. -/
def filterByManufacturer (g : Graph) (m : String) : Finset String :=
  let ml := (lowerS m)
  nodeFilter g (fun _ d =>
    strContains (lowerS d.manufacturerS) ml
    || strContains (lowerS (payloadStr d (fun e => e.make))) ml)

/-- `FilterSystem._filter_by_owner`: lowered substring match on `owner`. -/
def filterByOwner (g : Graph) (o : String) : Finset String :=
  let ol := (lowerS o)
  nodeFilter g (fun _ d => strContains (lowerS d.ownerS) ol)

/-- `FilterSystem._filter_by_vehicle_type`: substring match on
`vehicle_type`, restricted to nodes with `type == 'vehicle'`. -/
def filterByVehicleType (g : Graph) (vt : String) : Finset String :=
  let vl := (lowerS vt)
  nodeFilter g (fun _ d =>
    d.type == "vehicle" && strContains (lowerS d.vehicleTypeS) vl)

/-- `FilterSystem._filter_by_organization_type`: substring match on
`organization_type`, restricted to `type == 'militaryOrganization'`. -/
def filterByOrganizationType (g : Graph) (ot : String) : Finset String :=
  let ol := (lowerS ot)
  nodeFilter g (fun _ d =>
    d.type == "militaryOrganization" && strContains (lowerS d.organizationTypeS) ol)

/-- `FilterSystem._filter_by_area_type`: substring match on `area_type`,
restricted to `type == 'area'`. -/
def filterByAreaType (g : Graph) (at' : String) : Finset String :=
  let al := (lowerS at')
  nodeFilter g (fun _ d =>
    d.type == "area" && strContains (lowerS d.areaTypeS) al)

/-- `FilterSystem._filter_by_relationship`: both endpoints of every edge
whose `relationship` equals the given value. -/
def filterByRelationship (g : Graph) (rel : String) : Finset String :=
  ((g.edges.filter (fun e => e.relationship == rel)).foldr
    (fun e acc => e.src :: e.tgt :: acc) []).toFinset

/-- `FilterSystem._filter_by_keyword`: lowered substring search across the
label, the node id, the payload's name values, and the payload fields
`description`, `title`, `model`, `make`. -/
def filterByKeyword (g : Graph) (kw : String) : Finset String :=
  let kl := (lowerS kw)
  nodeFilter g (fun nid d =>
    strContains (lowerS d.label) kl
    || strContains (lowerS nid) kl
    || (payloadNames d).any (fun n => strContains (lowerS (n.value.getD "")) kl)
    || strContains (lowerS (payloadStr d (fun e => e.description))) kl
    || strContains (lowerS (payloadStr d (fun e => e.title))) kl
    || strContains (lowerS (payloadStr d (fun e => e.model))) kl
    || strContains (lowerS (payloadStr d (fun e => e.make))) kl)

/-- `FilterSystem._filter_by_connection`: the neighbours of the target
node plus the target itself; empty when the target is absent. -/
def filterByConnection (g : Graph) (target : String) : Finset String :=
  if target ∈ nodeIds g then insert target (neighbors g target) else ∅

/-- `FilterSystem._filter_by_min_degree`: non-numeric bound fails closed. -/
def filterByMinDegree (g : Graph) (v : FilterValue) : Finset String :=
  match pyToInt v with
  | none => ∅
  | some k => nodeFilter g (fun nid _ => k ≤ (degree g nid : Int))

/-- `FilterSystem._filter_by_max_degree`: non-numeric bound fails closed. -/
def filterByMaxDegree (g : Graph) (v : FilterValue) : Finset String :=
  match pyToInt v with
  | none => ∅
  | some k => nodeFilter g (fun nid _ => (degree g nid : Int) ≤ k)

/-- The union of the keyword lists of the requested categories (requested
names absent from the table contribute nothing). -/
def categoryKeywords (cats : List String) : List String :=
  cats.foldl
    (fun acc c =>
      match equipmentCategories.find? (fun p => p.1 = c) with
      | some p => acc ++ p.2
      | none => acc) []

/-- The per-node match of `_filter_by_equipment_category`: the fixed
priority cascade (type; vehicle/organization/area-specific attributes when
the corresponding category was requested; label; payload names; payload
descriptive fields).  The `break`/`continue` bookkeeping of the source
only short-circuits, so a node matches iff any applicable check holds. -/
def equipmentMatch (cats : List String) (kws : List String) (d : NodeData) : Bool :=
  kws.any (fun k => strContains (lowerS d.type) (lowerS k))
  || ((cats.contains "vehicle" || cats.contains "vehicles")
      && kws.any (fun k => strContains (lowerS d.vehicleTypeS) (lowerS k)))
  || (cats.contains "administrative"
      && kws.any (fun k => strContains (lowerS d.organizationTypeS) (lowerS k)))
  || (cats.contains "geographic"
      && kws.any (fun k => strContains (lowerS d.areaTypeS) (lowerS k)))
  || kws.any (fun k => strContains (lowerS d.label) (lowerS k))
  || (payloadNames d).any (fun n =>
      kws.any (fun k => strContains (lowerS (n.value.getD "")) (lowerS k)))
  || kws.any (fun k => strContains (lowerS (payloadStr d (fun e => e.description))) (lowerS k))
  || kws.any (fun k => strContains (lowerS (payloadStr d (fun e => e.title))) (lowerS k))
  || kws.any (fun k => strContains (lowerS (payloadStr d (fun e => e.model))) (lowerS k))
  || kws.any (fun k => strContains (lowerS (payloadStr d (fun e => e.make))) (lowerS k))
  || kws.any (fun k => strContains (lowerS (payloadStr d (fun e => e.classification))) (lowerS k))

/-- `FilterSystem._filter_by_equipment_category` on a category list: an
empty collected keyword set returns the empty set early. -/
def filterByEquipmentCategory (g : Graph) (cats : List String) : Finset String :=
  let kws := categoryKeywords cats
  if kws = [] then ∅
  else nodeFilter g (fun _ d => equipmentMatch cats kws d)

/-- `FilterSystem.available_filters`: the registry dict mapping filter
names to filter functions, in registration order.  `none` results model an
uncaught Python exception (`.lower()`/`.split()` on a non-string argument
raises `AttributeError`, iterating an `int` category argument raises
`TypeError`; neither is caught).  Filters that compare the argument with
`==` or `in` accept any value without raising. -/
def availableFilters :
    List (String × (Graph → FilterValue → Option (Finset String))) :=
  [("country", fun g v =>
     match v with | .str s => some (filterByCountry g s) | _ => none),
   ("type", fun g v =>
     some (match v with | .str s => filterByType g s | _ => ∅)),
   ("year", fun g v => some (filterByYear g v)),
   ("year_range", fun g v =>
     match v with | .str s => some (filterByYearRange g s) | _ => none),
   ("manufacturer", fun g v =>
     match v with | .str s => some (filterByManufacturer g s) | _ => none),
   ("owner", fun g v =>
     match v with | .str s => some (filterByOwner g s) | _ => none),
   ("vehicle_type", fun g v =>
     match v with | .str s => some (filterByVehicleType g s) | _ => none),
   ("organization_type", fun g v =>
     match v with | .str s => some (filterByOrganizationType g s) | _ => none),
   ("area_type", fun g v =>
     match v with | .str s => some (filterByAreaType g s) | _ => none),
   ("relationship", fun g v =>
     some (match v with | .str s => filterByRelationship g s | _ => ∅)),
   ("keyword", fun g v =>
     match v with | .str s => some (filterByKeyword g s) | _ => none),
   ("has_connection", fun g v =>
     some (match v with | .str s => filterByConnection g s | _ => ∅)),
   ("degree_min", fun g v => some (filterByMinDegree g v)),
   ("degree_max", fun g v => some (filterByMaxDegree g v)),
   ("equipment_category", fun g v =>
     match v with
     | .str s => some (filterByEquipmentCategory g [s])
     | .list l => some (filterByEquipmentCategory g l)
     | .int _ => none)]

/-- `self.available_filters[filter_name]` lookup. -/
def findFilter (name : String) :
    Option (String × (Graph → FilterValue → Option (Finset String))) :=
  availableFilters.find? (fun p => p.1 = name)

/-- The recognized filter names (`self.available_filters` keys). -/
def availableFilterNames : List String := availableFilters.map Prod.fst

/-- `self.available_filters[filter_name](graph, value)` for a recognized
name, `none` for an unrecognized one (never consulted on that path:
`apply_filters` skips unrecognized names). -/
def runFilter (name : String) (g : Graph) (v : FilterValue) :
    Option (Finset String) :=
  match findFilter name with
  | some p => p.2 g v
  | none => none

/-- The filter loop of `apply_filters`: intersect the running valid-node
set with each recognized filter's match set, skipping unknown names. -/
def applyFilterAcc (g : Graph) : List (String × FilterValue) → Finset String →
    Option (Finset String)
  | [], acc => some acc
  | (n, v) :: rest, acc =>
    match findFilter n with
    | some p =>
      match p.2 g v with
      | some s => applyFilterAcc g rest (acc ∩ s)
      | none => none
    | none => applyFilterAcc g rest acc

/-- `FilterSystem.apply_filters`: an empty filter map returns a copy of
the graph; otherwise the induced subgraph over the final valid-node set. -/
def applyFilters (g : Graph) (filters : List (String × FilterValue)) :
    Option Graph :=
  if filters = [] then some g
  else (applyFilterAcc g filters (nodeIds g)).map (fun valid => inducedSubgraph g valid)

/-! ### Advanced (logical) filters -/

/-- One entry of the `conditions` list of an advanced filter config
(`filter` is `none` when the condition dict lacks a `'filter'` key). -/
structure Condition where
  filter : Option (List (String × FilterValue)) := none
  notFlag : Bool := false
deriving DecidableEq

/-- An advanced filter config (`logic` is `none` when the config dict
lacks a `'logic'` key). -/
structure FilterConfig where
  logic : Option String := none
  conditions : List Condition := []
deriving DecidableEq

/-- The per-condition filter fold of `_apply_logical_filter`: starting
from the empty set, each recognized filter's match set *replaces* an empty
running set and is intersected with a nonempty one (this is the point at
which the source deviates from `apply_filters`' pure intersection). -/
def condFoldNodes (g : Graph) : List (String × FilterValue) → Finset String →
    Option (Finset String)
  | [], acc => some acc
  | (n, v) :: rest, acc =>
    match findFilter n with
    | some p =>
      match p.2 g v with
      | some s => condFoldNodes g rest (if acc = ∅ then s else acc ∩ s)
      | none => none
    | none => condFoldNodes g rest acc

/-- The `result_sets` list of `_apply_logical_filter`: one set per
condition that has a `'filter'` key, complemented against the full node
set when `not` is set. -/
def conditionSets (g : Graph) : List Condition → Option (List (Finset String))
  | [] => some []
  | c :: rest =>
    match c.filter with
    | none => conditionSets g rest
    | some fmap =>
      match condFoldNodes g fmap ∅ with
      | none => none
      | some s =>
        (conditionSets g rest).map
          (fun r => (if c.notFlag then nodeIds g \ s else s) :: r)

/-- The final combination of `_apply_logical_filter`: `'AND'` and any
unknown logic intersect (empty result-set list yields the empty set),
`'OR'` unions. -/
def combineLogic (logic : String) (sets : List (Finset String)) : Finset String :=
  if logic = "OR" then sets.foldl (fun a s => a ∪ s) ∅
  else
    match sets with
    | [] => ∅
    | s :: r => r.foldl (fun a s' => a ∩ s') s

/-- `FilterSystem._apply_logical_filter` (called with `'logic'` present;
`filter_config.get('logic', 'AND')` therefore reads the given value). -/
def applyLogicalFilter (g : Graph) (config : FilterConfig) : Option Graph :=
  let logic := config.logic.getD "AND"
  if config.conditions = [] then some g
  else (conditionSets g config.conditions).map
    (fun sets => inducedSubgraph g (combineLogic logic sets))

/-- `FilterSystem.create_advanced_filter`: the logical path only when the
config has a `'logic'` key; otherwise the config dict itself is handed to
`apply_filters`, where its `'conditions'` key is an unrecognized filter
name (the value of an unrecognized key is never read, so it is represented
by a placeholder). -/
def createAdvancedFilter (g : Graph) (config : FilterConfig) : Option Graph :=
  match config.logic with
  | some _ => applyLogicalFilter g config
  | none => applyFilters g [("conditions", FilterValue.list [])]

/-! ## Statistics Engine (`src/statistics_generator.py`) -/

/-- A `collections.Counter` / `defaultdict(int)` as an insertion-ordered
association list of positive counts. -/
def bump {α : Type} [DecidableEq α] (key : α) :
    List (α × Nat) → List (α × Nat)
  | [] => [(key, 1)]
  | p :: rest =>
      if p.1 = key then (key, p.2 + 1) :: rest
      else p :: bump key rest

/-- The accumulator dict of `_analyze_single_country`. -/
structure CountryStats where
  total_assets : Nat := 0
  vehicles : Nat := 0
  organizations : Nat := 0
  areas : Nat := 0
  people : Nat := 0
  vehicle_types : List (String × Nat) := []
  organization_types : List (String × Nat) := []
  manufacturers : List (String × Nat) := []
  timeline : List (Int × Nat) := []
deriving DecidableEq

/-- The country-membership predicate of `_analyze_single_country`: the
lowered token occurs as a substring of `owner`, `country` or
`nationality`, or — for nodes of type `'country'` — of the label. -/
def belongsToCountry (country : String) (d : NodeData) : Bool :=
  let cl := (lowerS country)
  strContains (lowerS d.ownerS) cl
  || strContains (lowerS d.countryS) cl
  || strContains (lowerS d.nationalityS) cl
  || (d.type == "country" && strContains (lowerS d.label) cl)

/-- The per-node update of `_analyze_single_country`: count the asset,
bucket it by the *singular* type tags, and extend the timeline when the
`year` attribute is truthy. -/
def countryStep (country : String) (st : CountryStats) (p : String × NodeData) :
    CountryStats :=
  let d := p.2
  if belongsToCountry country d then
    let st := { st with total_assets := st.total_assets + 1 }
    let st :=
      if d.type = "vehicle" then
        { st with vehicles := st.vehicles + 1
                  vehicle_types := bump (d.vehicle_type.getD "unknown") st.vehicle_types
                  manufacturers := bump (d.manufacturer.getD "unknown") st.manufacturers }
      else if d.type = "militaryOrganization" then
        { st with organizations := st.organizations + 1
                  organization_types := bump (d.organization_type.getD "unknown") st.organization_types }
      else if d.type = "area" then
        { st with areas := st.areas + 1 }
      else if d.type = "person" then
        { st with people := st.people + 1 }
      else st
    match d.year with
    | some y => if y ≠ 0 then { st with timeline := bump y st.timeline } else st
    | none => st
  else st

/-- `StatisticsGenerator._analyze_single_country`. -/
def analyzeSingleCountry (g : Graph) (country : String) : CountryStats :=
  g.nodes.foldl (countryStep country) {}

/-- Truthiness of one attribute slot for the completeness score
(`field in data and data[field]`). -/
def truthyStr (o : Option String) : Bool :=
  match o with
  | some s => s ≠ ""
  | none => false

/-- The six slots `required_fields + optional_fields` of
`_calculate_completeness_score`, in source order, as truthiness bits. -/
def filledSlots (d : NodeData) : List Bool :=
  [d.type ≠ "", d.label ≠ "",
   (match d.year with | some y => y ≠ 0 | none => false),
   truthyStr d.country, truthyStr d.manufacturer, truthyStr d.owner]

/-- Filled slots of one node (0–6). -/
def filledCount (d : NodeData) : Nat :=
  (filledSlots d).count true

/-- Total filled slots over all nodes. -/
def filledFields (g : Graph) : Nat :=
  (g.nodes.map (fun p => filledCount p.2)).sum

/-- Total slots over all nodes (the loop adds 6 per node). -/
def totalFields (g : Graph) : Nat :=
  6 * g.nodes.length

/-- `StatisticsGenerator._calculate_completeness_score`. -/
def completenessScore (g : Graph) : ℚ :=
  (filledFields g : ℚ) / (max 1 (totalFields g) : ℚ)

/-- The five canonical (singular) type tags of
`_calculate_consistency_score`. -/
def canonicalTypes : List String :=
  ["country", "vehicle", "person", "area", "militaryOrganization"]

/-- Nodes whose `type` is canonical. -/
def consistentItems (g : Graph) : Nat :=
  g.nodes.countP (fun p => p.2.type ∈ canonicalTypes)

/-- `StatisticsGenerator._calculate_consistency_score`. -/
def consistencyScore (g : Graph) : ℚ :=
  (consistentItems g : ℚ) / (max 1 g.nodes.length : ℚ)

/-- `len(graph.edges) / max(1, len(graph.nodes))`. -/
def connectivityScore (g : Graph) : ℚ :=
  (g.edges.length : ℚ) / (max 1 g.nodes.length : ℚ)

/-- `StatisticsGenerator._calculate_data_quality_score`: 0.0 for the
empty graph, else the weighted sum capped at 1.0. -/
def dataQualityScore (g : Graph) : ℚ :=
  if g.nodes.length = 0 then 0
  else
    min 1 (connectivityScore g * (3 / 10) + completenessScore g * (1 / 2)
           + consistencyScore g * (1 / 5))

/-! ## Specification-side reference definitions and proof helpers -/

/-- The list of recognized filters' match sets for a filter map, in map
order (`none` when one of them raises).  Proof helper used to state the
intersection semantics of `apply_filters`. -/
def recResults (g : Graph) : List (String × FilterValue) →
    Option (List (Finset String))
  | [] => some []
  | (n, v) :: rest =>
    match findFilter n with
    | some p =>
      match p.2 g v with
      | some s => (recResults g rest).map (fun l => s :: l)
      | none => none
    | none => recResults g rest

/-- Checker for the amended C3: at least one recognized filter, and the
running left-to-right intersection is nonempty before each later filter
is folded in (the final intersection may be empty). -/
def foldChainOk : List (Finset String) → Bool
  | [] => false
  | s :: r => foldChainGo s r
where
  foldChainGo (acc : Finset String) : List (Finset String) → Bool
    | [] => true
    | s :: r => decide (acc ≠ ∅) && foldChainGo (acc ∩ s) r

/-- Spec-side first-wins merge (claim C5's words): walk the already
source-tagged entity stream and keep each truthy id's first occurrence. -/
def specFirstWins : List Entity → Finset String → List Entity
  | [], _ => []
  | e :: r, seen =>
    match truthyId e with
    | some i =>
      if i ∉ seen then e :: specFirstWins r (insert i seen)
      else specFirstWins r seen
    | none => specFirstWins r seen

/-- Spec-side tagged concatenation of the sources' collections for one
entity type, in caller-supplied source order (claim C5's words). -/
def taggedStream (t : String) (dbs : List (String × Database)) : List Entity :=
  (dbs.map (fun p =>
    ((p.2.get t).getD []).map
      (fun e => { e with sourceDatabase := some p.1 }))).flatten

/-! ## Concrete fixtures -/

/-- The country entity of the end-to-end scenario (claim C1). -/
def entC1 : Entity :=
  { id := some "c1"
    names := some [{ nameType := some "official", value := some "UK" }] }

/-- The vehicle entity of the end-to-end scenario (claim C1). -/
def entV1 : Entity :=
  { id := some "v1"
    owner := some "c1"
    vehicleType := some "vt1"
    year := some 1990
    make := some "BAE" }

/-- The vehicle-type entity of the end-to-end scenario (claim C1). -/
def entVT1 : Entity := { id := some "vt1" }

/-- The input database of the end-to-end scenario (claim C1). -/
def db0 : Database :=
  { countries := some [entC1]
    vehicles := some [entV1]
    vehicleTypes := some [entVT1] }

/-- The graph the end-to-end scenario builds. -/
def g0 : Graph := buildGraph db0 true

/-- Two edges connect the same unordered endpoint pair. -/
def samePair (e1 e2 : Edge) : Prop :=
  (e1.src = e2.src ∧ e1.tgt = e2.tgt) ∨ (e1.src = e2.tgt ∧ e1.tgt = e2.src)

/-- The simple-graph edge-store invariant: pairwise distinct unordered
endpoint pairs, and no self-loops. -/
def EdgeInv (g : Graph) : Prop :=
  g.edges.Pairwise (fun e1 e2 => ¬ samePair e1 e2) ∧ ∀ e ∈ g.edges, e.src ≠ e.tgt

/-- Every node's `type` is one of the plural collection names. -/
def NodeTypesOk (g : Graph) : Prop := ∀ p ∈ g.nodes, p.2.type ∈ entityTypes

/-- A second vehicle entity with the same id `v1` (different `year`),
for the dedup-on-merge scenario of claim C5. -/
def entV1B : Entity := { id := some "v1", year := some 2000 }

/-- First merge source of claim C5. -/
def dbA : Database := { vehicles := some [entV1] }

/-- Second merge source of claim C5 (duplicate id `v1`). -/
def dbB : Database := { vehicles := some [entV1B] }

/-- The inner filter map of the C3 counterexample: a malformed `year`
argument (matching nothing) followed by `type = vehicles`. -/
def cexMap : List (String × FilterValue) :=
  [("year", FilterValue.str "bogus"), ("type", FilterValue.str "vehicles")]

/-- The C3 counterexample's condition over `cexMap`. -/
def cexCondition : Condition := { filter := some cexMap, notFlag := false }

/-- A plain `type = vehicles` condition. -/
def typeCondition : Condition :=
  { filter := some [("type", FilterValue.str "vehicles")], notFlag := false }

/-! ## Basic lemmas -/

theorem mem_nodeIds {g : Graph} {x : String} :
    x ∈ nodeIds g ↔ ∃ d, (x, d) ∈ g.nodes := by
  simp only [nodeIds, List.mem_toFinset, List.mem_map]
  constructor
  · rintro ⟨⟨a, d⟩, hm, rfl⟩
    exact ⟨d, hm⟩
  · rintro ⟨d, hm⟩
    exact ⟨(x, d), hm, rfl⟩

theorem fst_mem_nodeIds {g : Graph} {p : String × NodeData}
    (h : p ∈ g.nodes) : p.1 ∈ nodeIds g :=
  mem_nodeIds.mpr ⟨p.2, h⟩

theorem nodeFilter_subset {g : Graph} {p : String → NodeData → Bool} :
    nodeFilter g p ⊆ nodeIds g := by
  intro x hx
  simp only [nodeFilter, List.mem_toFinset, List.mem_map, List.mem_filter] at hx
  obtain ⟨q, ⟨hq, _⟩, rfl⟩ := hx
  exact fst_mem_nodeIds hq

theorem mem_nodeFilter {g : Graph} {p : String → NodeData → Bool} {x : String} :
    x ∈ nodeFilter g p ↔ ∃ d, (x, d) ∈ g.nodes ∧ p x d = true := by
  simp only [nodeFilter, List.mem_toFinset, List.mem_map, List.mem_filter]
  constructor
  · rintro ⟨⟨a, d⟩, ⟨hm, hp⟩, rfl⟩
    exact ⟨d, hm, hp⟩
  · rintro ⟨d, hm, hp⟩
    exact ⟨(x, d), ⟨hm, hp⟩, rfl⟩

theorem neighbors_subset {g : Graph} (hw : Wf g) (n : String) :
    neighbors g n ⊆ nodeIds g := by
  intro x hx
  simp only [neighbors, List.mem_toFinset, List.mem_filterMap] at hx
  obtain ⟨e, he, hx⟩ := hx
  obtain ⟨h1, h2⟩ := hw e he
  by_cases hs : e.src = n
  · simp only [hs, if_pos rfl] at hx
    cases hx
    exact h2
  · simp only [if_neg hs] at hx
    by_cases ht : e.tgt = n
    · simp only [ht, if_pos rfl] at hx
      cases hx
      exact h1
    · simp [ht] at hx

theorem mem_endpoints_foldr {l : List Edge} {x : String} :
    x ∈ l.foldr (fun e acc => e.src :: e.tgt :: acc) [] ↔
      ∃ e ∈ l, x = e.src ∨ x = e.tgt := by
  induction l with
  | nil => simp
  | cons e es ih =>
    simp only [List.foldr_cons, List.mem_cons, ih]
    constructor
    · rintro (rfl | rfl | ⟨e', he', h⟩)
      · exact ⟨e, Or.inl rfl, Or.inl rfl⟩
      · exact ⟨e, Or.inl rfl, Or.inr rfl⟩
      · exact ⟨e', Or.inr he', h⟩
    · rintro ⟨e', rfl | he'', h⟩
      · rcases h with rfl | rfl
        · exact Or.inl rfl
        · exact Or.inr (Or.inl rfl)
      · exact Or.inr (Or.inr ⟨e', he'', h⟩)

theorem filterByRelationship_subset {g : Graph} (hw : Wf g) {r : String} :
    filterByRelationship g r ⊆ nodeIds g := by
  intro x hx
  simp only [filterByRelationship, List.mem_toFinset, mem_endpoints_foldr] at hx
  obtain ⟨e, he, hx⟩ := hx
  obtain ⟨h1, h2⟩ := hw e (List.mem_of_mem_filter he)
  rcases hx with rfl | rfl
  · exact h1
  · exact h2

theorem nodeIds_induced (g : Graph) (s : Finset String) :
    nodeIds (inducedSubgraph g s) = nodeIds g ∩ s := by
  ext x
  simp only [inducedSubgraph, nodeIds, Finset.mem_inter, List.mem_toFinset,
    List.mem_map, List.mem_filter]
  constructor
  · rintro ⟨⟨a, d⟩, ⟨hm, hs⟩, rfl⟩
    exact ⟨⟨(a, d), hm, rfl⟩, by simpa using hs⟩
  · rintro ⟨⟨⟨a, d⟩, hm, rfl⟩, hs⟩
    exact ⟨(a, d), ⟨hm, by simpa using hs⟩, rfl⟩

theorem filterByYear_subset {g : Graph} {v : FilterValue} :
    filterByYear g v ⊆ nodeIds g := by
  unfold filterByYear
  split
  · exact Finset.empty_subset _
  · exact nodeFilter_subset

theorem filterByYearRange_subset {g : Graph} {s : String} :
    filterByYearRange g s ⊆ nodeIds g := by
  unfold filterByYearRange
  split
  · exact Finset.empty_subset _
  · exact nodeFilter_subset

theorem filterByMinDegree_subset {g : Graph} {v : FilterValue} :
    filterByMinDegree g v ⊆ nodeIds g := by
  unfold filterByMinDegree
  split
  · exact Finset.empty_subset _
  · exact nodeFilter_subset

theorem filterByMaxDegree_subset {g : Graph} {v : FilterValue} :
    filterByMaxDegree g v ⊆ nodeIds g := by
  unfold filterByMaxDegree
  split
  · exact Finset.empty_subset _
  · exact nodeFilter_subset

theorem filterByEquipmentCategory_subset {g : Graph} {cats : List String} :
    filterByEquipmentCategory g cats ⊆ nodeIds g := by
  by_cases hk : categoryKeywords cats = []
  · simp [filterByEquipmentCategory, hk]
  · simp only [filterByEquipmentCategory, hk]
    simpa using nodeFilter_subset

theorem filterByConnection_subset {g : Graph} (hw : Wf g) {t : String} :
    filterByConnection g t ⊆ nodeIds g := by
  unfold filterByConnection
  split
  · intro x hx
    rcases Finset.mem_insert.mp hx with rfl | hx
    · assumption
    · exact neighbors_subset hw t hx
  · exact Finset.empty_subset _

set_option maxHeartbeats 3200000 in
/-- A registered filter function's result lies inside the graph's node
set (for a NetworkX-well-formed graph; the node-scanning filters need no
well-formedness, the edge-based ones do). -/
theorem availableFilters_subset {g : Graph} {v : FilterValue}
    {s : Finset String}
    {p : String × (Graph → FilterValue → Option (Finset String))}
    (hw : Wf g) (hp : p ∈ availableFilters) (h : p.2 g v = some s) :
    s ⊆ nodeIds g := by
  simp only [availableFilters, List.mem_cons, List.not_mem_nil, or_false] at hp
  rcases hp with rfl | rfl | rfl | rfl | rfl | rfl | rfl | rfl | rfl | rfl |
    rfl | rfl | rfl | rfl | rfl <;>
    cases v <;>
    simp only [Option.some.injEq, reduceCtorEq] at h <;>
    (try subst h) <;>
    first
    | exact nodeFilter_subset
    | exact Finset.empty_subset _
    | exact filterByYear_subset
    | exact filterByYearRange_subset
    | exact filterByMinDegree_subset
    | exact filterByMaxDegree_subset
    | exact filterByEquipmentCategory_subset
    | exact filterByConnection_subset hw
    | exact filterByRelationship_subset hw

/-- Every filter's match set lies inside the node set. -/
theorem runFilter_subset {g : Graph} {n : String} {v : FilterValue}
    {s : Finset String} (hw : Wf g) (h : runFilter n g v = some s) :
    s ⊆ nodeIds g := by
  unfold runFilter at h
  cases hf : findFilter n with
  | none => rw [hf] at h; cases h
  | some p =>
    rw [hf] at h
    exact availableFilters_subset hw (List.mem_of_find?_eq_some hf) h

/-- The filter loop of `apply_filters` is the pure left fold of
intersection over the recognized filters' match sets. -/
theorem applyAcc_eq (g : Graph) :
    ∀ (fs : List (String × FilterValue)) (acc : Finset String),
      applyFilterAcc g fs acc =
        (recResults g fs).map (fun l => l.foldl (fun a s => a ∩ s) acc) := by
  intro fs
  induction fs with
  | nil => intro acc; rfl
  | cons p rest ih =>
    intro acc
    obtain ⟨n, v⟩ := p
    simp only [applyFilterAcc, recResults]
    cases hf : findFilter n with
    | none => exact ih acc
    | some q =>
      dsimp only
      cases hr : q.2 g v with
      | none => rfl
      | some s =>
        dsimp only
        rw [ih]
        cases recResults g rest <;> simp [List.foldl_cons]

/-- The per-condition filter fold of `_apply_logical_filter` is the left
fold of the replace-when-empty operation over the same match sets. -/
theorem condFold_eq (g : Graph) :
    ∀ (fs : List (String × FilterValue)) (acc : Finset String),
      condFoldNodes g fs acc =
        (recResults g fs).map
          (fun l => l.foldl (fun a s => if a = ∅ then s else a ∩ s) acc) := by
  intro fs
  induction fs with
  | nil => intro acc; rfl
  | cons p rest ih =>
    intro acc
    obtain ⟨n, v⟩ := p
    simp only [condFoldNodes, recResults]
    cases hf : findFilter n with
    | none => exact ih acc
    | some q =>
      dsimp only
      cases hr : q.2 g v with
      | none => rfl
      | some s =>
        dsimp only
        rw [ih]
        cases recResults g rest <;> simp [List.foldl_cons]

theorem foldl_inter_subset :
    ∀ (l : List (Finset String)) (acc : Finset String),
      l.foldl (fun a s => a ∩ s) acc ⊆ acc := by
  intro l
  induction l with
  | nil => intro acc; exact subset_rfl
  | cons s r ih =>
    intro acc
    exact (ih (acc ∩ s)).trans (Finset.inter_subset_left)

/-- Every set in `recResults` is some registered filter's output. -/
theorem recResults_mem {g : Graph} :
    ∀ {fs : List (String × FilterValue)} {l : List (Finset String)},
      recResults g fs = some l → ∀ s ∈ l,
        ∃ p ∈ availableFilters, ∃ v, p.2 g v = some s := by
  intro fs
  induction fs with
  | nil =>
    intro l h s hs
    cases h
    simp at hs
  | cons q rest ih =>
    intro l h s hs
    obtain ⟨n, v⟩ := q
    simp only [recResults] at h
    cases hf : findFilter n with
    | none =>
      rw [hf] at h
      exact ih h s hs
    | some p =>
      rw [hf] at h
      dsimp only at h
      cases hr : p.2 g v with
      | none => rw [hr] at h; cases h
      | some s' =>
        rw [hr] at h
        cases hrr : recResults g rest with
        | none => rw [hrr] at h; cases h
        | some l' =>
          rw [hrr] at h
          cases h
          rcases List.mem_cons.mp hs with rfl | hs'
          · exact ⟨p, List.mem_of_find?_eq_some hf, v, hr⟩
          · exact ih hrr s hs'

/-- Under `foldChainOk`'s nonemptiness discipline the replace-when-empty
fold never replaces, so it agrees with the pure intersection fold. -/
theorem chainGo_fold_eq :
    ∀ (r : List (Finset String)) (acc : Finset String),
      foldChainOk.foldChainGo acc r = true →
      r.foldl (fun a s => if a = ∅ then s else a ∩ s) acc =
        r.foldl (fun a s => a ∩ s) acc := by
  intro r
  induction r with
  | nil => intro acc _; rfl
  | cons s r' ih =>
    intro acc hok
    simp only [foldChainOk.foldChainGo, Bool.and_eq_true, decide_eq_true_eq] at hok
    simp only [List.foldl_cons, if_neg hok.1]
    exact ih (acc ∩ s) hok.2

/-- When the recognized filters' sets satisfy `foldChainOk` and lie inside
the node set, the buggy per-condition fold from `∅` equals the pure
intersection fold from the full node set. -/
theorem chain_agree {g : Graph} {l : List (Finset String)}
    (hok : foldChainOk l = true) (hsub : ∀ s ∈ l, s ⊆ nodeIds g) :
    l.foldl (fun a s => if a = ∅ then s else a ∩ s) ∅ =
      l.foldl (fun a s => a ∩ s) (nodeIds g) := by
  cases l with
  | nil => cases hok
  | cons s0 r =>
    have h0 : s0 ⊆ nodeIds g := hsub s0 (List.mem_cons_self s0 r)
    have hstep : (if (∅ : Finset String) = ∅ then s0 else ∅ ∩ s0) = s0 := if_pos rfl
    have hok' : foldChainOk.foldChainGo s0 r = true := hok
    rw [List.foldl_cons, List.foldl_cons, hstep,
      Finset.inter_eq_right.mpr h0, chainGo_fold_eq r s0 hok']

/-- Generic fold-invariant preservation. -/
theorem foldl_preserve {α β : Type} (P : α → Prop) {f : α → β → α}
    (hf : ∀ a b, P a → P (f a b)) :
    ∀ (l : List β) (a : α), P a → P (l.foldl f a) := by
  intro l
  induction l with
  | nil => intro a ha; exact ha
  | cons b r ih => intro a ha; exact ih (f a b) (hf a b ha)

/-- Fold-invariant preservation when the step property is only known for
list members. -/
theorem foldl_preserve_mem {α β : Type} (P : α → Prop) {f : α → β → α} :
    ∀ (l : List β), (∀ a b, b ∈ l → P a → P (f a b)) →
      ∀ a, P a → P (l.foldl f a) := by
  intro l
  induction l with
  | nil => intro _ a ha; exact ha
  | cons b r ih =>
    intro hf a ha
    exact ih (fun a' b' hb' => hf a' b' (List.mem_cons_of_mem b hb'))
      (f a b) (hf a b (List.mem_cons_self b r) ha)

/-! ## Edge-store invariants (claim C6) -/

theorem eqPair_iff {u v : String} {e : Edge} :
    eqPair u v e = true ↔ (e.src = u ∧ e.tgt = v) ∨ (e.src = v ∧ e.tgt = u) := by
  simp [eqPair]

theorem upsertEdge_mem {u v rel : String} :
    ∀ {l : List Edge} {x : Edge}, x ∈ upsertEdge u v rel l →
      (∃ y ∈ l, x.src = y.src ∧ x.tgt = y.tgt) ∨ (x.src = u ∧ x.tgt = v) := by
  intro l
  induction l with
  | nil =>
    intro x hx
    simp only [upsertEdge, List.mem_singleton] at hx
    subst hx
    exact Or.inr ⟨rfl, rfl⟩
  | cons e r ih =>
    intro x hx
    simp only [upsertEdge] at hx
    by_cases hp : eqPair u v e = true
    · rw [if_pos hp] at hx
      rcases List.mem_cons.mp hx with rfl | hx'
      · exact Or.inl ⟨e, List.mem_cons_self e r, rfl, rfl⟩
      · exact Or.inl ⟨x, List.mem_cons_of_mem e hx', rfl, rfl⟩
    · rw [if_neg hp] at hx
      rcases List.mem_cons.mp hx with rfl | hx'
      · exact Or.inl ⟨x, List.mem_cons_self x r, rfl, rfl⟩
      · rcases ih hx' with ⟨y, hy, hxy⟩ | hxy
        · exact Or.inl ⟨y, List.mem_cons_of_mem e hy, hxy⟩
        · exact Or.inr hxy

theorem upsertEdge_pairwise {u v rel : String} :
    ∀ {l : List Edge},
      l.Pairwise (fun e1 e2 => ¬ samePair e1 e2) →
      (upsertEdge u v rel l).Pairwise (fun e1 e2 => ¬ samePair e1 e2) := by
  intro l
  induction l with
  | nil =>
    intro _
    simp [upsertEdge]
  | cons e r ih =>
    intro hp
    rw [List.pairwise_cons] at hp
    simp only [upsertEdge]
    by_cases hq : eqPair u v e = true
    · rw [if_pos hq]
      rw [List.pairwise_cons]
      refine ⟨?_, hp.2⟩
      intro y hy hsp
      exact hp.1 y hy hsp
    · rw [if_neg hq]
      rw [List.pairwise_cons]
      refine ⟨?_, ih hp.2⟩
      intro y hy hsp
      rcases upsertEdge_mem hy with ⟨z, hz, hzz⟩ | hxy
      · exact hp.1 z hz (by
          rcases hsp with ⟨h1, h2⟩ | ⟨h1, h2⟩
          · exact Or.inl ⟨h1.trans hzz.1, h2.trans hzz.2⟩
          · exact Or.inr ⟨h1.trans hzz.2, h2.trans hzz.1⟩)
      · refine absurd hq ?_
        simp only [ne_eq, not_not]
        rcases hsp with ⟨h1, h2⟩ | ⟨h1, h2⟩
        · exact eqPair_iff.mpr (Or.inl ⟨h1.trans hxy.1, h2.trans hxy.2⟩)
        · exact eqPair_iff.mpr (Or.inr ⟨h1.trans hxy.2, h2.trans hxy.1⟩)

theorem upsertEdge_noloop {u v rel : String} (huv : u ≠ v) :
    ∀ {l : List Edge}, (∀ e ∈ l, e.src ≠ e.tgt) →
      ∀ e ∈ upsertEdge u v rel l, e.src ≠ e.tgt := by
  intro l
  induction l with
  | nil =>
    intro _ e he
    simp only [upsertEdge, List.mem_singleton] at he
    subst he
    exact huv
  | cons e0 r ih =>
    intro hl e he
    simp only [upsertEdge] at he
    by_cases hq : eqPair u v e0 = true
    · rw [if_pos hq] at he
      rcases List.mem_cons.mp he with rfl | he'
      · exact hl e0 (List.mem_cons_self e0 r)
      · exact hl e (List.mem_cons_of_mem e0 he')
    · rw [if_neg hq] at he
      rcases List.mem_cons.mp he with rfl | he'
      · exact hl e (List.mem_cons_self e r)
      · exact ih (fun x hx => hl x (List.mem_cons_of_mem e0 hx)) e he'

/-- `_add_edge` preserves the simple-graph edge-store invariant. -/
theorem addEdge_inv {g : Graph} (hi : EdgeInv g) (u v rel : String) :
    EdgeInv (addEdge g u v rel) := by
  unfold addEdge
  by_cases huv : u = v
  · rw [if_pos huv]; exact hi
  · rw [if_neg huv]
    exact ⟨upsertEdge_pairwise hi.1, upsertEdge_noloop huv hi.2⟩

theorem addEdge_nodes (g : Graph) (u v rel : String) :
    (addEdge g u v rel).nodes = g.nodes := by
  unfold addEdge
  split <;> rfl

theorem addNode_edges (g : Graph) (nid : String) (e : Entity) (etype : String)
    (im : Bool) : (addNode g nid e etype im).edges = g.edges := rfl

theorem addEntityEdges_inv {emap : EMap} {g : Graph} (hi : EdgeInv g)
    (p : String × (String × Entity)) : EdgeInv (addEntityEdges emap g p) := by
  unfold addEntityEdges
  refine foldl_preserve EdgeInv ?_ _ _
    (foldl_preserve EdgeInv ?_ _ _ (foldl_preserve EdgeInv ?_ _ _ hi))
  · intro a b ha
    refine foldl_preserve EdgeInv ?_ _ _ ha
    intro a' b' ha'
    dsimp only
    split
    · exact addEdge_inv ha' _ _ _
    · exact ha'
  · intro a b ha
    refine foldl_preserve EdgeInv ?_ _ _ ha
    intro a' b' ha'
    dsimp only
    split
    · exact addEdge_inv ha' _ _ _
    · exact ha'
  · intro a b ha
    dsimp only
    split
    · exact addEdge_inv ha _ _ _
    · exact ha

theorem addRelationships_inv {g : Graph} {emap : EMap} (hi : EdgeInv g) :
    EdgeInv (addRelationships g emap) :=
  foldl_preserve EdgeInv (fun _ b ha => addEntityEdges_inv ha b) emap g hi

theorem buildNodes_edges (db : Database) (im : Bool) :
    (buildNodes db im).1.edges = [] := by
  unfold buildNodes
  refine foldl_preserve (fun (acc : Graph × EMap) => acc.1.edges = []) ?_ _ _ rfl
  intro a b ha
  dsimp only
  cases db.get b with
  | none => exact ha
  | some entities =>
    refine foldl_preserve (fun (acc : Graph × EMap) => acc.1.edges = []) ?_ _ _ ha
    intro a2 e ha2
    dsimp only
    cases e.id with
    | none => exact ha2
    | some nid =>
      dsimp only
      by_cases hnid : nid ≠ ""
      · rw [if_pos hnid]
        exact ha2
      · rw [if_neg hnid]
        exact ha2

/-- Every graph `build_graph` produces satisfies the simple-graph
edge-store invariant. -/
theorem buildGraph_edgeInv (db : Database) (im : Bool) :
    EdgeInv (buildGraph db im) := by
  unfold buildGraph
  apply addRelationships_inv
  constructor
  · rw [buildNodes_edges]
    exact List.Pairwise.nil
  · rw [buildNodes_edges]
    intro e he
    cases he

theorem relBetween_upsert (u v rel : String) :
    ∀ (l : List Edge),
      ((upsertEdge u v rel l).find? (eqPair u v)).map (fun e => e.relationship) =
        some rel := by
  intro l
  induction l with
  | nil => simp [upsertEdge, List.find?, eqPair]
  | cons e r ih =>
    simp only [upsertEdge]
    by_cases hq : eqPair u v e = true
    · rw [if_pos hq]
      have hq' : eqPair u v ⟨e.src, e.tgt, rel, 1⟩ = true := by
        simpa [eqPair] using hq
      simp [List.find?, hq']
    · rw [if_neg hq]
      simp only [List.find?, hq]
      exact ih

/-- Inserting an edge between a pair overwrites the stored relationship
label (last write wins). -/
theorem relBetween_addEdge {g : Graph} {u v rel : String} (huv : u ≠ v) :
    relBetween (addEdge g u v rel) u v = some rel := by
  unfold addEdge relBetween
  rw [if_neg huv]
  exact relBetween_upsert u v rel g.edges

/-! ## Node-type invariant of built graphs (claim C10) -/

theorem upsertNode_mem {nid : String} {nd : NodeData} :
    ∀ {l : List (String × NodeData)} {x : String × NodeData},
      x ∈ upsertNode nid nd l → x ∈ l ∨ x.2.type = nd.type := by
  intro l
  induction l with
  | nil =>
    intro x hx
    simp only [upsertNode, List.mem_singleton] at hx
    subst hx
    exact Or.inr rfl
  | cons p r ih =>
    intro x hx
    simp only [upsertNode] at hx
    by_cases hp : p.1 = nid
    · rw [if_pos hp] at hx
      rcases List.mem_cons.mp hx with rfl | hx'
      · exact Or.inr rfl
      · exact Or.inl (List.mem_cons_of_mem p hx')
    · rw [if_neg hp] at hx
      rcases List.mem_cons.mp hx with rfl | hx'
      · exact Or.inl (List.mem_cons_self x r)
      · rcases ih hx' with h | h
        · exact Or.inl (List.mem_cons_of_mem p h)
        · exact Or.inr h

theorem addNode_typesOk {g : Graph} (hg : NodeTypesOk g) {nid : String}
    {e : Entity} {etype : String} (het : etype ∈ entityTypes) (im : Bool) :
    NodeTypesOk (addNode g nid e etype im) := by
  intro p hp
  rcases upsertNode_mem hp with h | h
  · exact hg p h
  · rw [h]
    exact het

theorem buildNodes_typesOk (db : Database) (im : Bool) :
    NodeTypesOk (buildNodes db im).1 := by
  unfold buildNodes
  refine foldl_preserve_mem (fun (acc : Graph × EMap) => NodeTypesOk acc.1) _ ?_ _ ?_
  · intro a etype hmem ha
    dsimp only
    cases db.get etype with
    | none => exact ha
    | some entities =>
      refine foldl_preserve (fun (acc : Graph × EMap) => NodeTypesOk acc.1) ?_ _ _ ha
      intro a2 e ha2
      dsimp only
      cases e.id with
      | none => exact ha2
      | some nid =>
        dsimp only
        by_cases hnid : nid ≠ ""
        · rw [if_pos hnid]
          exact addNode_typesOk ha2 hmem im
        · rw [if_neg hnid]
          exact ha2
  · intro p hp
    exact absurd hp (List.not_mem_nil p)

theorem addEntityEdges_nodes (emap : EMap) (g : Graph)
    (p : String × (String × Entity)) :
    (addEntityEdges emap g p).nodes = g.nodes := by
  unfold addEntityEdges
  refine foldl_preserve (fun (g' : Graph) => g'.nodes = g.nodes) ?_ _ _
    (foldl_preserve (fun (g' : Graph) => g'.nodes = g.nodes) ?_ _ _
      (foldl_preserve (fun (g' : Graph) => g'.nodes = g.nodes) ?_ _ _ rfl))
  · intro a b ha
    refine foldl_preserve (fun (g' : Graph) => g'.nodes = g.nodes) ?_ _ _ ha
    intro a' b' ha'
    dsimp only
    split
    · rw [addEdge_nodes]
      exact ha'
    · exact ha'
  · intro a b ha
    refine foldl_preserve (fun (g' : Graph) => g'.nodes = g.nodes) ?_ _ _ ha
    intro a' b' ha'
    dsimp only
    split
    · rw [addEdge_nodes]
      exact ha'
    · exact ha'
  · intro a b ha
    dsimp only
    split
    · rw [addEdge_nodes]
      exact ha
    · exact ha

theorem addRelationships_nodes (g : Graph) (emap : EMap) :
    (addRelationships g emap).nodes = g.nodes := by
  unfold addRelationships
  refine foldl_preserve (fun (g' : Graph) => g'.nodes = g.nodes) ?_ _ _ rfl
  intro a b ha
  rw [addEntityEdges_nodes]
  exact ha

/-- Every node of a built graph carries a plural collection name as its
`type` tag. -/
theorem buildGraph_typesOk (db : Database) (im : Bool) :
    NodeTypesOk (buildGraph db im) := by
  unfold buildGraph
  intro p hp
  rw [addRelationships_nodes] at hp
  exact buildNodes_typesOk db im p hp

/-! ## Combine-databases lemmas (claim C5) -/

theorem truthyId_tag (e : Entity) (name : String) :
    truthyId { e with sourceDatabase := some name } = truthyId e := rfl

theorem combineFromList_spec (name : String) :
    ∀ (es : List Entity) (seen : Finset String) (k : List Entity),
      specFirstWins (es.map (fun e => { e with sourceDatabase := some name }) ++ k)
          seen =
        (combineFromList name es seen).1 ++
          specFirstWins k (combineFromList name es seen).2 := by
  intro es
  induction es with
  | nil => intro seen k; rfl
  | cons e r ih =>
    intro seen k
    simp only [List.map_cons, List.cons_append, specFirstWins, combineFromList,
      truthyId_tag]
    cases ht : truthyId e with
    | none => exact ih seen k
    | some i =>
      dsimp only
      by_cases hm : i ∉ seen
      · rw [if_pos hm, if_pos hm]
        simp only [List.cons_append]
        exact congrArg (List.cons _) (ih (insert i seen) k)
      · rw [if_neg hm, if_neg hm]
        exact ih seen k

theorem taggedStream_cons (t name : String) (db : Database)
    (rest : List (String × Database)) :
    taggedStream t ((name, db) :: rest) =
      ((db.get t).getD []).map (fun e => { e with sourceDatabase := some name })
        ++ taggedStream t rest := rfl

/-- The per-type merged list of `combine_databases` is exactly the
spec-side first-wins walk of the tagged source stream. -/
theorem combineEntities_spec (t : String) :
    ∀ (dbs : List (String × Database)) (seen : Finset String),
      combineEntities t dbs seen = specFirstWins (taggedStream t dbs) seen := by
  intro dbs
  induction dbs with
  | nil => intro seen; rfl
  | cons p rest ih =>
    intro seen
    obtain ⟨name, db⟩ := p
    simp only [combineEntities]
    rw [taggedStream_cons,
      combineFromList_spec name ((db.get t).getD []) seen (taggedStream t rest), ih]

theorem specFirstWins_mem :
    ∀ {l : List Entity} {seen : Finset String} {x : Entity},
      x ∈ specFirstWins l seen → x ∈ l := by
  intro l
  induction l with
  | nil => intro seen x hx; exact absurd hx (List.not_mem_nil x)
  | cons e r ih =>
    intro seen x hx
    simp only [specFirstWins] at hx
    cases ht : truthyId e with
    | none =>
      rw [ht] at hx
      exact List.mem_cons_of_mem e (ih hx)
    | some i =>
      rw [ht] at hx
      dsimp only at hx
      by_cases hm : i ∉ seen
      · rw [if_pos hm] at hx
        rcases List.mem_cons.mp hx with rfl | hx'
        · exact List.mem_cons_self _ _
        · exact List.mem_cons_of_mem e (ih hx')
      · rw [if_neg hm] at hx
        exact List.mem_cons_of_mem e (ih hx)

theorem taggedStream_mem {t : String} {dbs : List (String × Database)}
    {x : Entity} (hx : x ∈ taggedStream t dbs) :
    ∃ p ∈ dbs, ∃ e0 ∈ (p.2.get t).getD [],
      x = { e0 with sourceDatabase := some p.1 } := by
  simp only [taggedStream, List.mem_flatten, List.mem_map] at hx
  obtain ⟨l, ⟨p, hp, rfl⟩, hxl⟩ := hx
  obtain ⟨e0, he0, rfl⟩ := List.mem_map.mp hxl
  exact ⟨p, hp, e0, he0, rfl⟩

/-! ## Quality-score lemmas (claim C4) -/

theorem filledCount_le (d : NodeData) : filledCount d ≤ 6 :=
  List.count_le_length _ _

theorem filledFields_le (g : Graph) : filledFields g ≤ totalFields g := by
  unfold filledFields totalFields
  induction g.nodes with
  | nil => simp
  | cons p r ih =>
    simp only [List.map_cons, List.sum_cons, List.length_cons]
    have h := filledCount_le p.2
    omega

theorem consistentItems_le (g : Graph) : consistentItems g ≤ g.nodes.length :=
  List.countP_le_length _

theorem qden_pos (n : ℕ) : (0 : ℚ) < max 1 (n : ℚ) :=
  lt_of_lt_of_le zero_lt_one (le_max_left 1 _)

theorem completenessScore_nonneg (g : Graph) : 0 ≤ completenessScore g :=
  div_nonneg (by positivity) (le_of_lt (qden_pos (totalFields g)))

theorem completenessScore_le_one (g : Graph) : completenessScore g ≤ 1 := by
  unfold completenessScore
  rw [div_le_one (qden_pos (totalFields g))]
  have h1 : (filledFields g : ℚ) ≤ (totalFields g : ℚ) := by
    exact_mod_cast filledFields_le g
  exact h1.trans (le_max_right 1 _)

theorem consistencyScore_nonneg (g : Graph) : 0 ≤ consistencyScore g :=
  div_nonneg (by positivity) (le_of_lt (qden_pos g.nodes.length))

theorem consistencyScore_le_one (g : Graph) : consistencyScore g ≤ 1 := by
  unfold consistencyScore
  rw [div_le_one (qden_pos g.nodes.length)]
  have h1 : (consistentItems g : ℚ) ≤ (g.nodes.length : ℚ) := by
    exact_mod_cast consistentItems_le g
  exact h1.trans (le_max_right 1 _)

theorem connectivityScore_nonneg (g : Graph) : 0 ≤ connectivityScore g :=
  div_nonneg (by positivity) (le_of_lt (qden_pos g.nodes.length))

theorem dataQualityScore_nonneg (g : Graph) : 0 ≤ dataQualityScore g := by
  unfold dataQualityScore
  split
  · exact le_refl 0
  · refine le_min (by norm_num) ?_
    have h1 := connectivityScore_nonneg g
    have h2 := completenessScore_nonneg g
    have h3 := consistencyScore_nonneg g
    positivity

theorem dataQualityScore_le_one (g : Graph) : dataQualityScore g ≤ 1 := by
  unfold dataQualityScore
  split
  · norm_num
  · exact min_le_left _ _

/-! ## Claim theorems -/

/-- C1, counterexample: on the graph built from the end-to-end scenario's
input, the filter `{type: "vehicle"}` does *not* match `{"v1"}` (built
node types are the plural collection names), and the single-country
analysis for `"UK"` does *not* count one asset (`"uk"` is not a substring
of v1's owner `"c1"`, and no node has type `"country"`). -/
theorem claim_C1_counterexample :
    filterByType g0 "vehicle" ≠ {"v1"} ∧
    (analyzeSingleCountry g0 "UK").total_assets ≠ 1 := by
  constructor
  · decide
  · decide

/-- C1, amended: the scenario's build produces exactly the nodes
`c1, v1, vt1` and the two edges `v1–c1` (`owner`) and `v1–vt1`
(`vehicleType`); because node types are the plural collection names, the
filter `{type: "vehicles"}` (not `"vehicle"`, which matches nothing)
yields exactly `{"v1"}`; and the single-country analysis for `"UK"`
counts 0 assets. -/
theorem claim_C1_amended :
    (g0.nodes.map Prod.fst = ["c1", "v1", "vt1"]
      ∧ g0.edges = [⟨"v1", "c1", "owner", 1⟩, ⟨"v1", "vt1", "vehicleType", 1⟩])
    ∧ filterByType g0 "vehicle" = ∅
    ∧ (∃ r, applyFilters g0 [("type", FilterValue.str "vehicles")] = some r
        ∧ nodeIds r = {"v1"})
    ∧ (analyzeSingleCountry g0 "UK").total_assets = 0 := by
  refine ⟨⟨by decide, by decide⟩, by decide, ⟨inducedSubgraph g0 {"v1"}, by decide, by decide⟩, by decide⟩

/-- C4: the data-quality score is `0.0` on the empty graph, equals
`0.3·(E/N) + 0.5·(filled/(6N)) + 0.2·(consistent/N)` capped at `1.0` on a
nonempty graph (where `filled` counts the non-empty slots among the six
attribute slots type/label/year/country/manufacturer/owner over all nodes
and `consistent` counts the nodes with a canonical singular type), and
always lies in `[0, 1]`. -/
theorem claim_C4 : ∀ g : Graph,
    (0 ≤ dataQualityScore g ∧ dataQualityScore g ≤ 1)
    ∧ (g.nodes = [] → dataQualityScore g = 0)
    ∧ (g.nodes ≠ [] →
        dataQualityScore g =
          min 1 ((3 / 10) * ((g.edges.length : ℚ) / (g.nodes.length : ℚ))
            + (1 / 2) * ((filledFields g : ℚ) / (6 * (g.nodes.length : ℚ)))
            + (1 / 5) * ((consistentItems g : ℚ) / (g.nodes.length : ℚ)))) := by
  intro g
  refine ⟨⟨dataQualityScore_nonneg g, dataQualityScore_le_one g⟩, ?_, ?_⟩
  · intro h
    unfold dataQualityScore
    rw [if_pos (by simp [h])]
  · intro h
    have hn : g.nodes.length ≠ 0 := by simpa using h
    have h1 : (1 : ℚ) ≤ (g.nodes.length : ℚ) := by
      exact_mod_cast Nat.one_le_iff_ne_zero.mpr hn
    have h6 : (1 : ℚ) ≤ ((totalFields g : ℕ) : ℚ) := by
      have : 1 ≤ totalFields g := by
        unfold totalFields
        omega
      exact_mod_cast this
    unfold dataQualityScore connectivityScore completenessScore consistencyScore
    rw [if_neg hn, max_eq_right h1, max_eq_right h6]
    unfold totalFields
    congr 1
    push_cast
    ring

/-- C4 witness: the quality score of the end-to-end scenario's graph
matches the formula (its value is 9/20). -/
theorem claim_C4_witness :
    (dataQualityScore g0 =
      min 1 ((3 / 10) * ((g0.edges.length : ℚ) / (g0.nodes.length : ℚ))
        + (1 / 2) * ((filledFields g0 : ℚ) / (6 * (g0.nodes.length : ℚ)))
        + (1 / 5) * ((consistentItems g0 : ℚ) / (g0.nodes.length : ℚ))))
    ∧ dataQualityScore (Graph.mk [] []) = 0 :=
  ⟨(claim_C4 g0).2.2 (by decide), (claim_C4 (Graph.mk [] [])).2.1 rfl⟩

/-- C6: a built graph never holds two edges over the same unordered
endpoint pair and never holds a self-loop; re-inserting an edge between an
existing pair silently overwrites the stored relationship label (last
write wins); inserting with equal endpoints leaves the graph unchanged. -/
theorem claim_C6 :
    (∀ (db : Database) (im : Bool),
      (buildGraph db im).edges.Pairwise (fun e1 e2 => ¬ samePair e1 e2)
      ∧ ∀ e ∈ (buildGraph db im).edges, e.src ≠ e.tgt)
    ∧ (∀ (g : Graph) (u v rel : String), u ≠ v →
        relBetween (addEdge g u v rel) u v = some rel)
    ∧ (∀ (g : Graph) (u rel : String), addEdge g u u rel = g) := by
  refine ⟨?_, ?_, ?_⟩
  · intro db im
    exact ⟨(buildGraph_edgeInv db im).1, (buildGraph_edgeInv db im).2⟩
  · intro g u v rel huv
    exact relBetween_addEdge huv
  · intro g u rel
    unfold addEdge
    rw [if_pos rfl]

/-- C6 witness: the overwrite lemma at a concrete insertion, and the
no-self-loop property at the concrete built edge `v1–c1`. -/
theorem claim_C6_witness :
    relBetween (addEdge g0 "v1" "c1" "country") "v1" "c1" = some "country"
    ∧ (⟨"v1", "c1", "owner", 1⟩ : Edge).src ≠ (⟨"v1", "c1", "owner", 1⟩ : Edge).tgt :=
  ⟨claim_C6.2.1 g0 "v1" "c1" "country" (by decide),
   (claim_C6.1 db0 true).2 ⟨"v1", "c1", "owner", 1⟩ (by decide)⟩

theorem findFilter_none {name : String} (h : name ∉ availableFilterNames) :
    findFilter name = none := by
  unfold findFilter
  rw [List.find?_eq_none]
  intro p hp
  simp only [decide_eq_true_eq]
  intro hpn
  exact h (hpn ▸ List.mem_map_of_mem Prod.fst hp)

/-- A one-entry filter map with an unrecognized name restricts nothing. -/
theorem applyFilters_unknown (g : Graph) (name : String) (v : FilterValue)
    (hname : name ∉ availableFilterNames) :
    ∃ r, applyFilters g [(name, v)] = some r ∧ r.nodes = g.nodes
      ∧ nodeIds r = nodeIds g := by
  have hacc : applyFilterAcc g [(name, v)] (nodeIds g) = some (nodeIds g) := by
    simp only [applyFilterAcc, findFilter_none hname]
  refine ⟨inducedSubgraph g (nodeIds g), ?_, ?_, ?_⟩
  · unfold applyFilters
    rw [if_neg (by simp), hacc]
    rfl
  · unfold inducedSubgraph
    simp only
    rw [List.filter_eq_self]
    intro p hp
    exact decide_eq_true (fst_mem_nodeIds hp)
  · rw [nodeIds_induced, Finset.inter_self]

/-- C7: a filter map whose only key is an unrecognized filter name leaves
the node set (indeed the whole node list, attributes included) untouched:
the unknown name contributes no restriction. -/
theorem claim_C7 : ∀ (g : Graph) (name : String) (v : FilterValue),
    name ∉ availableFilterNames →
    ∃ r, applyFilters g [(name, v)] = some r ∧ r.nodes = g.nodes
      ∧ nodeIds r = nodeIds g := by
  intro g name v hname
  exact applyFilters_unknown g name v hname

/-- C7 witness: the unknown filter name `bogus` on the scenario graph. -/
theorem claim_C7_witness :
    ∃ r, applyFilters g0 [("bogus", FilterValue.int 1)] = some r
      ∧ r.nodes = g0.nodes ∧ nodeIds r = nodeIds g0 :=
  claim_C7 g0 "bogus" (FilterValue.int 1) (by decide)

/-- C8: a `year` argument that `int(...)` cannot parse, a `year_range`
string that does not parse as `"YYYY-YYYY"`, and a non-numeric
`degree_min`/`degree_max` bound each yield the empty match set; on their
annotated argument types these filters always return (never raise). -/
theorem claim_C8 :
    (∀ (g : Graph) (v : FilterValue), pyToInt v = none → filterByYear g v = ∅)
    ∧ (∀ (g : Graph) (s : String), parseYearRange s = none →
        filterByYearRange g s = ∅)
    ∧ (∀ (g : Graph) (v : FilterValue), pyToInt v = none →
        filterByMinDegree g v = ∅ ∧ filterByMaxDegree g v = ∅)
    ∧ (∀ (g : Graph) (v : FilterValue),
        runFilter "year" g v = some (filterByYear g v)
        ∧ runFilter "degree_min" g v = some (filterByMinDegree g v)
        ∧ runFilter "degree_max" g v = some (filterByMaxDegree g v))
    ∧ (∀ (g : Graph) (s : String),
        runFilter "year_range" g (FilterValue.str s) =
          some (filterByYearRange g s)) := by
  refine ⟨?_, ?_, ?_, ?_, ?_⟩
  · intro g v h
    unfold filterByYear
    rw [h]
  · intro g s h
    unfold filterByYearRange
    rw [h]
  · intro g v h
    constructor
    · unfold filterByMinDegree
      rw [h]
    · unfold filterByMaxDegree
      rw [h]
  · intro g v
    exact ⟨rfl, rfl, rfl⟩
  · intro g s
    rfl

/-- C8 witness: concrete malformed arguments on the scenario graph. -/
theorem claim_C8_witness :
    filterByYear g0 (FilterValue.str "bogus") = ∅
    ∧ filterByYearRange g0 "1990" = ∅
    ∧ (filterByMinDegree g0 (FilterValue.str "two") = ∅
        ∧ filterByMaxDegree g0 (FilterValue.str "two") = ∅) :=
  ⟨claim_C8.1 g0 (FilterValue.str "bogus") (by decide),
   claim_C8.2.1 g0 "1990" (by decide),
   claim_C8.2.2.1 g0 (FilterValue.str "two") (by decide)⟩

/-- C10 (implicit): every node of a built graph carries the plural
collection name of its source collection as its `type`; consequently the
`vehicle_type`, `organization_type` and `area_type` filters (which demand
the singular tags `vehicle`, `militaryOrganization`, `area`) match no node
of a built graph, and the consistency score (which counts nodes with a
singular canonical type) is 0 for every built graph. -/
theorem claim_C10 : ∀ (db : Database) (im : Bool),
    (∀ p ∈ (buildGraph db im).nodes, p.2.type ∈ entityTypes)
    ∧ (∀ s : String,
        filterByVehicleType (buildGraph db im) s = ∅
        ∧ filterByOrganizationType (buildGraph db im) s = ∅
        ∧ filterByAreaType (buildGraph db im) s = ∅)
    ∧ consistencyScore (buildGraph db im) = 0 := by
  intro db im
  have htypes := buildGraph_typesOk db im
  have hnot : ∀ t ∈ entityTypes,
      t ≠ "vehicle" ∧ t ≠ "militaryOrganization" ∧ t ≠ "area"
        ∧ t ∉ canonicalTypes := by decide
  refine ⟨htypes, ?_, ?_⟩
  · intro s
    refine ⟨?_, ?_, ?_⟩
    · unfold filterByVehicleType
      rw [Finset.eq_empty_iff_forall_not_mem]
      intro x hx
      obtain ⟨d, hm, hp⟩ := mem_nodeFilter.mp hx
      have ht := (hnot _ (htypes (x, d) hm)).1
      simp only [Bool.and_eq_true, beq_iff_eq] at hp
      exact ht hp.1
    · unfold filterByOrganizationType
      rw [Finset.eq_empty_iff_forall_not_mem]
      intro x hx
      obtain ⟨d, hm, hp⟩ := mem_nodeFilter.mp hx
      have ht := (hnot _ (htypes (x, d) hm)).2.1
      simp only [Bool.and_eq_true, beq_iff_eq] at hp
      exact ht hp.1
    · unfold filterByAreaType
      rw [Finset.eq_empty_iff_forall_not_mem]
      intro x hx
      obtain ⟨d, hm, hp⟩ := mem_nodeFilter.mp hx
      have ht := (hnot _ (htypes (x, d) hm)).2.2.1
      simp only [Bool.and_eq_true, beq_iff_eq] at hp
      exact ht hp.1
  · unfold consistencyScore
    have hzero : consistentItems (buildGraph db im) = 0 := by
      unfold consistentItems
      rw [List.countP_eq_zero]
      intro p hp
      simp only [decide_eq_true_eq]
      exact (hnot _ (htypes p hp)).2.2.2
    rw [hzero]
    norm_num

/-- C10 witness: instantiated on the end-to-end scenario's database; the
vehicle node's type is the plural `vehicles`. -/
theorem claim_C10_witness :
    ("v1", mkNodeData entV1 "vehicles" true).2.type ∈ entityTypes
    ∧ filterByVehicleType (buildGraph db0 true) "vt1" = ∅
    ∧ consistencyScore (buildGraph db0 true) = 0 :=
  ⟨(claim_C10 db0 true).1 ("v1", mkNodeData entV1 "vehicles" true) (by decide),
   ((claim_C10 db0 true).2.1 "vt1").1,
   (claim_C10 db0 true).2.2⟩

/-- C5: per entity type, `combine_databases` keeps exactly the first
occurrence of each truthy id over the caller-ordered tagged source stream
(first source wins, later duplicates discarded whole); every kept entity
is its source entity tagged with its originating source name; merging two
sources that both hold a `v1` vehicle yields exactly one `v1`, tagged with
the first source's name. -/
theorem claim_C5 :
    (∀ (dbs : List (String × Database)) (t : String), t ∈ entityTypes →
      (combineDatabases dbs).get t =
        some (specFirstWins (taggedStream t dbs) ∅))
    ∧ (∀ (dbs : List (String × Database)) (t : String) (x : Entity),
        t ∈ entityTypes → x ∈ ((combineDatabases dbs).get t).getD [] →
        ∃ p ∈ dbs, ∃ e0 ∈ (p.2.get t).getD [],
          x = { e0 with sourceDatabase := some p.1 })
    ∧ (combineDatabases [("A", dbA), ("B", dbB)]).vehicles =
        some [{ entV1 with sourceDatabase := some "A" }] := by
  have hmain : ∀ (dbs : List (String × Database)) (t : String),
      t ∈ entityTypes →
      (combineDatabases dbs).get t =
        some (specFirstWins (taggedStream t dbs) ∅) := by
    intro dbs t ht
    fin_cases ht <;>
      simp only [combineDatabases, Database.get] <;>
      rw [combineEntities_spec]
  refine ⟨hmain, ?_, ?_⟩
  · intro dbs t x ht hx
    rw [hmain dbs t ht] at hx
    simp only [Option.getD_some] at hx
    exact taggedStream_mem (specFirstWins_mem hx)
  · decide

/-- C5 witness: the two-source `v1` merge, instantiated. -/
theorem claim_C5_witness :
    (combineDatabases [("A", dbA), ("B", dbB)]).get "vehicles" =
      some (specFirstWins (taggedStream "vehicles" [("A", dbA), ("B", dbB)]) ∅)
    ∧ ∃ p ∈ [("A", dbA), ("B", dbB)], ∃ e0 ∈ (p.2.get "vehicles").getD [],
        ({ entV1 with sourceDatabase := some "A" } : Entity) =
          { e0 with sourceDatabase := some p.1 } :=
  ⟨claim_C5.1 [("A", dbA), ("B", dbB)] "vehicles" (by decide),
   claim_C5.2.1 [("A", dbA), ("B", dbB)] "vehicles"
     { entV1 with sourceDatabase := some "A" } (by decide) (by decide)⟩

theorem recResults_nil (g : Graph) : recResults g [] = some [] := rfl

theorem findFilter_of_mem {n : String} (h : n ∈ availableFilterNames) :
    ∃ p, findFilter n = some p := by
  unfold findFilter
  unfold availableFilterNames at h
  obtain ⟨p, hp, hpn⟩ := List.mem_map.mp h
  have hsome : (availableFilters.find? (fun q => q.1 = n)).isSome := by
    rw [List.find?_isSome]
    exact ⟨p, hp, by simp [hpn]⟩
  exact Option.isSome_iff_exists.mp hsome

theorem recResults_cons {g : Graph} {n : String} {v : FilterValue}
    {s : Finset String} {fs : List (String × FilterValue)}
    {l : List (Finset String)} (hn : n ∈ availableFilterNames)
    (hr : runFilter n g v = some s) (hrest : recResults g fs = some l) :
    recResults g ((n, v) :: fs) = some (s :: l) := by
  obtain ⟨p, hp⟩ := findFilter_of_mem hn
  unfold runFilter at hr
  rw [hp] at hr
  dsimp only at hr
  simp only [recResults, hp, hr, hrest, Option.map_some']

/-- `apply_filters` on a map whose recognized filters return the sets `l`
succeeds and its node set is the fold of intersection over `l` starting
from the full node set. -/
theorem applyFilters_char {g : Graph} {fs : List (String × FilterValue)}
    {l : List (Finset String)} (hr : recResults g fs = some l) :
    ∃ r, applyFilters g fs = some r
      ∧ nodeIds r = l.foldl (fun a s => a ∩ s) (nodeIds g) := by
  by_cases hfs : fs = []
  · subst hfs
    cases hr
    exact ⟨g, by unfold applyFilters; rw [if_pos rfl], rfl⟩
  · refine ⟨inducedSubgraph g (l.foldl (fun a s => a ∩ s) (nodeIds g)), ?_, ?_⟩
    · unfold applyFilters
      rw [if_neg hfs, applyAcc_eq, hr]
      rfl
    · rw [nodeIds_induced]
      exact Finset.inter_eq_right.mpr (foldl_inter_subset l (nodeIds g))

theorem foldl_inter_from_full {g : Graph} {s0 : Finset String}
    {l' : List (Finset String)} (h0 : s0 ⊆ nodeIds g) :
    (s0 :: l').foldl (fun a s => a ∩ s) (nodeIds g) =
      l'.foldl (fun a s => a ∩ s) s0 := by
  rw [List.foldl_cons, Finset.inter_eq_right.mpr h0]

/-- C2: applying two recognized filters together yields exactly the
intersection of the node sets obtained by applying each alone; in
general the node set of `apply_filters` is the node set intersected with
every recognized filter's match set (hence the pure intersection of the
match sets whenever at least one filter is recognized). -/
theorem claim_C2 :
    (∀ (g : Graph) (n1 n2 : String) (v1 v2 : FilterValue) (s1 s2 : Finset String),
      Wf g → n1 ≠ n2 → n1 ∈ availableFilterNames → n2 ∈ availableFilterNames →
      runFilter n1 g v1 = some s1 → runFilter n2 g v2 = some s2 →
      ∃ g12 g1 g2, applyFilters g [(n1, v1), (n2, v2)] = some g12
        ∧ applyFilters g [(n1, v1)] = some g1
        ∧ applyFilters g [(n2, v2)] = some g2
        ∧ nodeIds g12 = nodeIds g1 ∩ nodeIds g2)
    ∧ (∀ (g : Graph) (fs : List (String × FilterValue)) (l : List (Finset String)),
      Wf g → recResults g fs = some l →
      ∃ r, applyFilters g fs = some r
        ∧ nodeIds r = l.foldl (fun a s => a ∩ s) (nodeIds g)
        ∧ ∀ (s0 : Finset String) (l' : List (Finset String)), l = s0 :: l' →
            nodeIds r = l'.foldl (fun a s => a ∩ s) s0) := by
  constructor
  · intro g n1 n2 v1 v2 s1 s2 _hw _hne h1 h2 hr1 hr2
    obtain ⟨g12, h12, hn12⟩ := applyFilters_char
      (recResults_cons h1 hr1 (recResults_cons h2 hr2 (recResults_nil g)))
    obtain ⟨g1, hg1, hn1⟩ := applyFilters_char (recResults_cons h1 hr1 (recResults_nil g))
    obtain ⟨g2, hg2, hn2⟩ := applyFilters_char (recResults_cons h2 hr2 (recResults_nil g))
    refine ⟨g12, g1, g2, h12, hg1, hg2, ?_⟩
    rw [hn12, hn1, hn2]
    simp only [List.foldl_cons, List.foldl_nil]
    ext x
    simp only [Finset.mem_inter]
    tauto
  · intro g fs l hw hr
    obtain ⟨r, hfs, hn⟩ := applyFilters_char hr
    refine ⟨r, hfs, hn, ?_⟩
    intro s0 l' hl
    subst hl
    have hsub : s0 ⊆ nodeIds g := by
      obtain ⟨p, hp, v, hpv⟩ := recResults_mem hr s0 (List.mem_cons_self _ _)
      exact availableFilters_subset hw hp hpv
    rw [hn, foldl_inter_from_full hsub]

/-- C2 witness: `type=vehicles` and `year=1990` on the scenario graph. -/
theorem claim_C2_witness :
    ∃ g12 g1 g2,
      applyFilters g0 [("type", FilterValue.str "vehicles"),
        ("year", FilterValue.str "1990")] = some g12
      ∧ applyFilters g0 [("type", FilterValue.str "vehicles")] = some g1
      ∧ applyFilters g0 [("year", FilterValue.str "1990")] = some g2
      ∧ nodeIds g12 = nodeIds g1 ∩ nodeIds g2 :=
  claim_C2.1 g0 "type" "year" (FilterValue.str "vehicles")
    (FilterValue.str "1990") (filterByType g0 "vehicles")
    (filterByYear g0 (FilterValue.str "1990"))
    (by decide) (by decide) (by decide) (by decide) rfl rfl

/-- C9: `apply_filters` returns the induced subgraph: its node entries are
exactly the input graph's entries (attributes untouched) whose id
survives, and its edges are exactly the input graph's edges whose two
endpoints survive.  (The embedding is pure because the source only reads
`graph` — `nodes`, `degree`, `neighbors`, `edges` — and builds its result
with `graph.subgraph(...).copy()`.) -/
theorem claim_C9 : ∀ (g : Graph) (fs : List (String × FilterValue)) (r : Graph),
    Wf g → applyFilters g fs = some r →
    (∀ p : String × NodeData, p ∈ r.nodes ↔ p ∈ g.nodes ∧ p.1 ∈ nodeIds r)
    ∧ (∀ e : Edge, e ∈ r.edges ↔
        e ∈ g.edges ∧ e.src ∈ nodeIds r ∧ e.tgt ∈ nodeIds r) := by
  intro g fs r hw happ
  by_cases hfs : fs = []
  · subst hfs
    unfold applyFilters at happ
    rw [if_pos rfl] at happ
    cases happ
    constructor
    · intro p
      exact ⟨fun hp => ⟨hp, fst_mem_nodeIds hp⟩, fun h => h.1⟩
    · intro e
      exact ⟨fun he => ⟨he, (hw e he).1, (hw e he).2⟩, fun h => h.1⟩
  · unfold applyFilters at happ
    rw [if_neg hfs] at happ
    cases hacc : applyFilterAcc g fs (nodeIds g) with
    | none =>
      rw [hacc] at happ
      cases happ
    | some S =>
      rw [hacc] at happ
      have hS : inducedSubgraph g S = r := by
        injection happ
      have hSsub : S ⊆ nodeIds g := by
        rw [applyAcc_eq] at hacc
        cases hrr : recResults g fs with
        | none => rw [hrr] at hacc; cases hacc
        | some l =>
          rw [hrr] at hacc
          simp only [Option.map_some', Option.some.injEq] at hacc
          exact hacc ▸ foldl_inter_subset l (nodeIds g)
      have hid : nodeIds r = S := by
        rw [← hS, nodeIds_induced]
        exact Finset.inter_eq_right.mpr hSsub
      subst hS
      constructor
      · intro p
        rw [hid]
        simp only [inducedSubgraph, List.mem_filter, decide_eq_true_eq]
      · intro e
        rw [hid]
        simp only [inducedSubgraph, List.mem_filter, decide_eq_true_eq]

/-- C9 witness: the `type=vehicles` filter on the scenario graph,
instantiated at its vehicle node and its `owner` edge. -/
theorem claim_C9_witness :
    (("v1", mkNodeData entV1 "vehicles" true) ∈ (inducedSubgraph g0 {"v1"}).nodes
      ↔ ("v1", mkNodeData entV1 "vehicles" true) ∈ g0.nodes
        ∧ "v1" ∈ nodeIds (inducedSubgraph g0 {"v1"}))
    ∧ ((⟨"v1", "c1", "owner", 1⟩ : Edge) ∈ (inducedSubgraph g0 {"v1"}).edges
        ↔ (⟨"v1", "c1", "owner", 1⟩ : Edge) ∈ g0.edges
          ∧ "v1" ∈ nodeIds (inducedSubgraph g0 {"v1"})
          ∧ "c1" ∈ nodeIds (inducedSubgraph g0 {"v1"})) :=
  ⟨(claim_C9 g0 [("type", FilterValue.str "vehicles")]
      (inducedSubgraph g0 {"v1"}) (by decide) (by decide)).1
      ("v1", mkNodeData entV1 "vehicles" true),
   (claim_C9 g0 [("type", FilterValue.str "vehicles")]
      (inducedSubgraph g0 {"v1"}) (by decide) (by decide)).2
      ⟨"v1", "c1", "owner", 1⟩⟩

/-! ## Claim C3 -/

theorem buggyFold_subset {nset : Finset String} :
    ∀ (l : List (Finset String)) (acc : Finset String),
      acc ⊆ nset → (∀ s ∈ l, s ⊆ nset) →
      l.foldl (fun a s => if a = ∅ then s else a ∩ s) acc ⊆ nset := by
  intro l
  induction l with
  | nil => intro acc ha _; exact ha
  | cons s r ih =>
    intro acc ha hl
    rw [List.foldl_cons]
    refine ih _ ?_ (fun x hx => hl x (List.mem_cons_of_mem s hx))
    by_cases he : acc = ∅
    · rw [if_pos he]
      exact hl s (List.mem_cons_self s r)
    · rw [if_neg he]
      exact Finset.inter_subset_left.trans ha

theorem unionFold_subset {nset : Finset String} :
    ∀ (l : List (Finset String)) (acc : Finset String),
      acc ⊆ nset → (∀ s ∈ l, s ⊆ nset) →
      l.foldl (fun a s => a ∪ s) acc ⊆ nset := by
  intro l
  induction l with
  | nil => intro acc ha _; exact ha
  | cons s r ih =>
    intro acc ha hl
    rw [List.foldl_cons]
    exact ih _ (Finset.union_subset ha (hl s (List.mem_cons_self s r)))
      (fun x hx => hl x (List.mem_cons_of_mem s hx))

theorem condFold_subset {g : Graph} {fs : List (String × FilterValue)}
    {s : Finset String} (hw : Wf g) (h : condFoldNodes g fs ∅ = some s) :
    s ⊆ nodeIds g := by
  rw [condFold_eq] at h
  cases hr : recResults g fs with
  | none => rw [hr] at h; cases h
  | some l =>
    rw [hr] at h
    simp only [Option.map_some', Option.some.injEq] at h
    subst h
    refine buggyFold_subset l ∅ (Finset.empty_subset _) ?_
    intro t ht
    obtain ⟨p, hp, v, hpv⟩ := recResults_mem hr t ht
    exact availableFilters_subset hw hp hpv

theorem condSets_subset {g : Graph} (hw : Wf g) :
    ∀ {conds : List Condition} {sets : List (Finset String)},
      conditionSets g conds = some sets → ∀ s ∈ sets, s ⊆ nodeIds g := by
  intro conds
  induction conds with
  | nil =>
    intro sets h s hs
    cases h
    simp at hs
  | cons c r ih =>
    intro sets h s hs
    simp only [conditionSets] at h
    cases hc : c.filter with
    | none =>
      rw [hc] at h
      exact ih h s hs
    | some fmap =>
      rw [hc] at h
      dsimp only at h
      cases hf : condFoldNodes g fmap ∅ with
      | none => rw [hf] at h; cases h
      | some s0 =>
        rw [hf] at h
        cases hrest : conditionSets g r with
        | none => rw [hrest] at h; cases h
        | some l0 =>
          rw [hrest] at h
          simp only [Option.map_some', Option.some.injEq] at h
          subst h
          rcases List.mem_cons.mp hs with rfl | hs'
          · by_cases hn : c.notFlag
            · simp only [if_pos hn]
              exact Finset.sdiff_subset
            · simp only [if_neg hn]
              exact condFold_subset hw hf
          · exact ih hrest s hs'

theorem combineLogic_default {lg : String} (h : lg ≠ "OR")
    (sets : List (Finset String)) :
    combineLogic lg sets = combineLogic "AND" sets := by
  unfold combineLogic
  rw [if_neg h, if_neg (by decide)]

/-- C3, counterexample: on the inner map
`{year: "bogus", type: "vehicles"}` the advanced filter's per-condition
evaluation yields `{"v1"}` (the empty set of the failed `year` filter is
*replaced*, not intersected), whereas `apply_filters` on the same map
yields `∅`; and with `logic` absent the advanced filter falls back to
`apply_filters` on the config dict (whose `conditions` key is an
unrecognized filter name) and keeps all nodes instead of AND-combining
the conditions. -/
theorem claim_C3_counterexample :
    ((createAdvancedFilter g0
        { logic := some "AND"
          conditions := [cexCondition] }).map nodeIds = some {"v1"}
      ∧ (applyFilters g0 cexMap).map nodeIds = some ∅
      ∧ some ({"v1"} : Finset String) ≠ some (∅ : Finset String))
    ∧ ((createAdvancedFilter g0
        { logic := none
          conditions := [typeCondition] }).map nodeIds = some {"c1", "v1", "vt1"}
      ∧ some ({"c1", "v1", "vt1"} : Finset String) ≠
          some ({"v1"} : Finset String)) := by
  exact ⟨⟨by decide, by decide, by decide⟩, ⟨by decide, by decide⟩⟩

/-- C3, amended: with `logic` present, each condition's inner filter map
is evaluated by folding the recognized filters' match sets left-to-right
with intersection *except that an empty running set is replaced by the
next set*; this agrees with `apply_filters` exactly when at least one
filter is recognized and no proper-prefix intersection is empty, while an
inner map with no recognized filter yields `∅` where `apply_filters`
yields all nodes; `not: true` complements against the full node set;
per-condition sets combine by the top-level logic (`OR` unions, any other
value intersects like `AND`); and when `logic` is absent
`create_advanced_filter` instead hands the config dict to `apply_filters`,
whose only key `conditions` is unrecognized, so all nodes survive. -/
theorem claim_C3_amended :
    (∀ (g : Graph) (fs : List (String × FilterValue)) (l : List (Finset String))
        (a b : Finset String),
      Wf g → recResults g fs = some l → foldChainOk l = true →
      condFoldNodes g fs ∅ = some a →
      applyFilterAcc g fs (nodeIds g) = some b → a = b)
    ∧ (∀ (g : Graph) (fs : List (String × FilterValue)),
        recResults g fs = some [] →
        condFoldNodes g fs ∅ = some ∅
          ∧ applyFilterAcc g fs (nodeIds g) = some (nodeIds g))
    ∧ (∀ (g : Graph) (c : Condition) (conds : List Condition)
        (fmap : List (String × FilterValue)) (s : Finset String)
        (l : List (Finset String)),
        c.filter = some fmap → condFoldNodes g fmap ∅ = some s →
        conditionSets g conds = some l →
        conditionSets g (c :: conds) =
          some ((if c.notFlag then nodeIds g \ s else s) :: l))
    ∧ (∀ (g : Graph) (lg : String) (conds : List Condition)
        (sets : List (Finset String)),
        Wf g → conds ≠ [] → conditionSets g conds = some sets →
        ∃ r, applyLogicalFilter g ⟨some lg, conds⟩ = some r
          ∧ (lg = "OR" → nodeIds r = sets.foldl (fun a s => a ∪ s) ∅)
          ∧ (lg ≠ "OR" → ∀ (s0 : Finset String) (rest : List (Finset String)),
              sets = s0 :: rest →
              nodeIds r = rest.foldl (fun a s => a ∩ s) s0))
    ∧ (∀ (g : Graph) (lg : String) (conds : List Condition), lg ≠ "OR" →
        applyLogicalFilter g ⟨some lg, conds⟩ =
          applyLogicalFilter g ⟨some "AND", conds⟩)
    ∧ (∀ (g : Graph) (conds : List Condition),
        createAdvancedFilter g ⟨none, conds⟩ =
          applyFilters g [("conditions", FilterValue.list [])]
        ∧ ∃ r, createAdvancedFilter g ⟨none, conds⟩ = some r
            ∧ nodeIds r = nodeIds g) := by
  refine ⟨?_, ?_, ?_, ?_, ?_, ?_⟩
  · intro g fs l a b hw hrec hok hcond happ
    rw [condFold_eq, hrec] at hcond
    rw [applyAcc_eq, hrec] at happ
    simp only [Option.map_some', Option.some.injEq] at hcond happ
    rw [← hcond, ← happ]
    refine chain_agree hok ?_
    intro s hs
    obtain ⟨p, hp, v, hpv⟩ := recResults_mem hrec s hs
    exact availableFilters_subset hw hp hpv
  · intro g fs hrec
    constructor
    · rw [condFold_eq, hrec]
      rfl
    · rw [applyAcc_eq, hrec]
      rfl
  · intro g c conds fmap s l hc hs hl
    simp only [conditionSets, hc, hs, hl, Option.map_some']
  · intro g lg conds sets hw hconds hsets
    have hsub : ∀ s ∈ sets, s ⊆ nodeIds g := condSets_subset hw hsets
    unfold applyLogicalFilter
    dsimp only
    rw [if_neg hconds, hsets]
    refine ⟨inducedSubgraph g (combineLogic ((some lg).getD "AND") sets),
      rfl, ?_, ?_⟩
    · intro hor
      rw [nodeIds_induced]
      have hcomb : combineLogic ((some lg).getD "AND") sets =
          sets.foldl (fun a s => a ∪ s) ∅ := by
        unfold combineLogic
        rw [Option.getD_some, if_pos hor]
      rw [hcomb]
      exact Finset.inter_eq_right.mpr
        (unionFold_subset sets ∅ (Finset.empty_subset _) hsub)
    · intro hor s0 rest hval
      subst hval
      rw [nodeIds_induced]
      have hcomb : combineLogic ((some lg).getD "AND") (s0 :: rest) =
          rest.foldl (fun a s => a ∩ s) s0 := by
        unfold combineLogic
        rw [Option.getD_some, if_neg hor]
      rw [hcomb]
      refine Finset.inter_eq_right.mpr ?_
      exact (foldl_inter_subset rest s0).trans
        (hsub s0 (List.mem_cons_self s0 rest))
  · intro g lg conds h
    unfold applyLogicalFilter
    dsimp only
    by_cases hc : conds = []
    · rw [if_pos hc, if_pos hc]
    · rw [if_neg hc, if_neg hc]
      congr 1
      funext sets
      simp only [Option.getD_some]
      rw [combineLogic_default h]
  · intro g conds
    refine ⟨rfl, ?_⟩
    obtain ⟨r, h1, _h2, h3⟩ :=
      applyFilters_unknown g "conditions" (FilterValue.list []) (by decide)
    exact ⟨r, h1, h3⟩

/-- C3 witness: the corrected agreement at a concrete chain-safe map, and
the unknown-logic default at a concrete instance. -/
theorem claim_C3_witness :
    ({"v1"} : Finset String) = {"v1"}
    ∧ applyLogicalFilter g0 ⟨some "XOR", []⟩ =
        applyLogicalFilter g0 ⟨some "AND", []⟩ :=
  ⟨claim_C3_amended.1 g0 [("type", FilterValue.str "vehicles"),
      ("year", FilterValue.str "1990")]
      [filterByType g0 "vehicles", filterByYear g0 (FilterValue.str "1990")]
      {"v1"} {"v1"} (by decide) (by decide) (by decide) (by decide) (by decide),
   claim_C3_amended.2.2.2.2.1 g0 "XOR" [] (by decide)⟩

end IES
